import Mathlib

/-!
Shallow embedding of `app.py` (gemini-rsvp FastAPI service) and proofs about
its response-normalization pipeline.

Strings from the Python side are modelled as `List Char`.  The external
Gemini call is modelled by its observable outcome: `none` when the upstream
returned no candidates, `some s` when it returned text `s` (the `.strip()`
performed by `call_gemini` is part of the embedding of `call_gemini`).
-/

set_option maxHeartbeats 1600000
set_option maxRecDepth 8192

namespace RSVP

/-- The double-quote character (written via its code point to keep character
literals simple). -/
def quoteC : Char := Char.ofNat 34

/-- The backslash character. -/
def backslashC : Char := Char.ofNat 92

/-- The backtick character. -/
def backtickC : Char := Char.ofNat 96

/-- The opening curly brace character. -/
def lbraceC : Char := Char.ofNat 123

/-- The closing curly brace character. -/
def rbraceC : Char := Char.ofNat 125

/-- ASCII whitespace as recognised by Python's `str.strip()` / `str.split()`
(space, tab, newline, carriage return, vertical tab, form feed). -/
def isPyWs (c : Char) : Bool :=
  c = ' ' || c = '\t' || c = '\n' || c = '\r' || c = '\x0b' || c = '\x0c'

/-- Whitespace as recognised by Python's `json` decoder (`' ', '\t', '\n', '\r'`). -/
def isJsonWs (c : Char) : Bool :=
  c = ' ' || c = '\t' || c = '\n' || c = '\r'

/-- Strip characters satisfying `p` from both ends of a list, the model of
Python's `str.strip()` family. -/
def stripEnds (p : Char → Bool) (l : List Char) : List Char :=
  ((l.dropWhile p).reverse.dropWhile p).reverse

/-- `payload.strip()`. -/
def pyStrip (l : List Char) : List Char := stripEnds isPyWs l

/-- `txt.strip("`")` : strip backticks from both ends. -/
def pyStripBt (l : List Char) : List Char := stripEnds (fun c => c = backtickC) l

/-- Python `str.find`: index of the first occurrence of `c`, or `-1`. -/
def pyFind : List Char → Char → Int
  | [], _ => -1
  | a :: t, c =>
    if a = c then 0
    else if pyFind t c = -1 then -1 else pyFind t c + 1

/-- Python `str.rfind`: index of the last occurrence of `c`, or `-1`. -/
def pyRfind (l : List Char) (c : Char) : Int :=
  if pyFind l.reverse c = -1 then -1 else (l.length : Int) - 1 - pyFind l.reverse c

/-- Python slice `l[a:b]` for `0 ≤ a`, `0 ≤ b`. -/
def pySlice (l : List Char) (a b : Nat) : List Char := (l.take b).drop a

/-- Fuel-indexed worker for `str.split()`; the fuel only serves to make the
recursion structural, `pySplitWs` always supplies enough. -/
def pySplitF : Nat → List Char → List (List Char)
  | 0, _ => []
  | Nat.succ f, l =>
    match l with
    | [] => []
    | c :: cs =>
      if isPyWs c then pySplitF f cs
      else (c :: cs.takeWhile (fun d => !isPyWs d)) ::
        pySplitF f (cs.dropWhile (fun d => !isPyWs d))

/-- Python `str.split()` with no separator: maximal runs of
non-whitespace characters, any run of whitespace acting as one separator. -/
def pySplitWs (l : List Char) : List (List Char) := pySplitF (l.length + 1) l

/-- Python `" ".join(ws)`. -/
def joinSpace : List (List Char) → List Char
  | [] => []
  | [w] => w
  | w :: ws => w ++ ' ' :: joinSpace ws

/-- The value type produced by `json.loads`.  Number and string values keep
their source lexemes: no claim compares numerically distinct spellings. -/
inductive JVal where
  | JNull : JVal
  | JBool : Bool → JVal
  | JNum : List Char → JVal
  | JStr : List Char → JVal
  | JArr : List JVal → JVal
  | JObj : List (List Char × JVal) → JVal

/-- Hex digit test for `\u` escapes. -/
def isHexC (c : Char) : Bool :=
  c.isDigit || ('a' ≤ c && c ≤ 'f') || ('A' ≤ c && c ≤ 'F')

/-- Parse the body of a JSON string after the opening quote; returns the raw
content characters and the remainder after the closing quote.  Follows the
strict decoder: control characters are rejected, escapes are restricted. -/
def parseStringBody : List Char → Option (List Char × List Char)
  | [] => none
  | c :: cs =>
    if c = quoteC then some ([], cs)
    else if c = backslashC then
      match cs with
      | [] => none
      | e :: cs2 =>
        if e = 'u' then
          match cs2 with
          | h1 :: h2 :: h3 :: h4 :: cs3 =>
            if isHexC h1 && isHexC h2 && isHexC h3 && isHexC h4 then
              (parseStringBody cs3).map (fun pr => (c :: e :: h1 :: h2 :: h3 :: h4 :: pr.1, pr.2))
            else none
          | _ => none
        else if e = quoteC || e = backslashC || e = '/' || e = 'b' || e = 'f' ||
                e = 'n' || e = 'r' || e = 't' then
          (parseStringBody cs2).map (fun pr => (c :: e :: pr.1, pr.2))
        else none
    else if c.toNat < 32 then none
    else (parseStringBody cs).map (fun pr => (c :: pr.1, pr.2))

/-- Integer part of a JSON number: `0`, or a nonzero digit followed by digits. -/
def parseIntPart : List Char → Option (List Char × List Char)
  | [] => none
  | c :: t =>
    if c = '0' then some ([c], t)
    else if c.isDigit then some (c :: t.takeWhile Char.isDigit, t.dropWhile Char.isDigit)
    else none

/-- Optional fraction part `.digits` of a JSON number. -/
def parseFracPart : List Char → Option (List Char × List Char)
  | [] => some ([], [])
  | c :: t =>
    if c = '.' then
      if t.takeWhile Char.isDigit = [] then none
      else some (c :: t.takeWhile Char.isDigit, t.dropWhile Char.isDigit)
    else some ([], c :: t)

/-- Optional exponent part `e[+-]digits` of a JSON number. -/
def parseExpPart : List Char → Option (List Char × List Char)
  | [] => some ([], [])
  | c :: t =>
    if c = 'e' || c = 'E' then
      match t with
      | [] => none
      | s :: t2 =>
        if s = '+' || s = '-' then
          if t2.takeWhile Char.isDigit = [] then none
          else some (c :: s :: t2.takeWhile Char.isDigit, t2.dropWhile Char.isDigit)
        else if t.takeWhile Char.isDigit = [] then none
        else some (c :: t.takeWhile Char.isDigit, t.dropWhile Char.isDigit)
    else some ([], c :: t)

/-- Split an optional leading minus sign off a number lexeme. -/
def parseNumSign (l : List Char) : List Char × List Char :=
  match l with
  | c :: t => if c = '-' then ([c], t) else ([], c :: t)
  | [] => ([], [])

/-- Parse a JSON number lexeme (including Python's `NaN`, `Infinity`,
`-Infinity` extensions; `NaN` and `Infinity` are dispatched in `parseVal`). -/
def parseNumber (l : List Char) : Option (List Char × List Char) :=
  if List.isPrefixOf ("-Infinity".toList) l then some ("-Infinity".toList, l.drop 9)
  else
    match parseIntPart (parseNumSign l).2 with
    | none => none
    | some (ip, l2) =>
      match parseFracPart l2 with
      | none => none
      | some (fp, l3) =>
        match parseExpPart l3 with
        | none => none
        | some (ep, l4) => some ((parseNumSign l).1 ++ ip ++ fp ++ ep, l4)

mutual

/-- Parse one JSON value (after skipping leading JSON whitespace); returns the
value and the unconsumed remainder.  Fuel-indexed; `jsonLoads` supplies enough
fuel for any input. -/
def parseVal : Nat → List Char → Option (JVal × List Char)
  | 0, _ => none
  | Nat.succ f, cs =>
    match cs.dropWhile isJsonWs with
    | [] => none
    | c :: r1 =>
      if c = quoteC then
        (parseStringBody r1).map (fun pr => (JVal.JStr pr.1, pr.2))
      else if c = lbraceC then
        match r1.dropWhile isJsonWs with
        | d :: _ =>
          if d = rbraceC then some (JVal.JObj [], (r1.dropWhile isJsonWs).drop 1)
          else
            match parseMembers f r1 with
            | some (kvs, r3) => some (JVal.JObj kvs, r3)
            | none => none
        | [] => none
      else if c = '[' then
        match r1.dropWhile isJsonWs with
        | d :: _ =>
          if d = ']' then some (JVal.JArr [], (r1.dropWhile isJsonWs).drop 1)
          else
            match parseElems f r1 with
            | some (xs, r3) => some (JVal.JArr xs, r3)
            | none => none
        | [] => none
      else if c = 't' then
        if List.isPrefixOf ("rue".toList) r1 then some (JVal.JBool true, r1.drop 3) else none
      else if c = 'f' then
        if List.isPrefixOf ("alse".toList) r1 then some (JVal.JBool false, r1.drop 4) else none
      else if c = 'n' then
        if List.isPrefixOf ("ull".toList) r1 then some (JVal.JNull, r1.drop 3) else none
      else if c = 'N' then
        if List.isPrefixOf ("aN".toList) r1 then some (JVal.JNum ("NaN".toList), r1.drop 2)
        else none
      else if c = 'I' then
        if List.isPrefixOf ("nfinity".toList) r1 then
          some (JVal.JNum ("Infinity".toList), r1.drop 7)
        else none
      else
        match parseNumber (c :: r1) with
        | some (lex, r2) => some (JVal.JNum lex, r2)
        | none => none

/-- Parse the members of a JSON object after the opening brace (at least one
member); consumes the closing brace. -/
def parseMembers : Nat → List Char → Option (List (List Char × JVal) × List Char)
  | 0, _ => none
  | Nat.succ f, cs =>
    match cs.dropWhile isJsonWs with
    | k :: r1 =>
      if k = quoteC then
        match parseStringBody r1 with
        | some (key, r2) =>
          match r2.dropWhile isJsonWs with
          | d :: r3 =>
            if d = ':' then
              match parseVal f r3 with
              | some (v, r4) =>
                match r4.dropWhile isJsonWs with
                | e :: r5 =>
                  if e = ',' then
                    match parseMembers f r5 with
                    | some (kvs, r6) => some ((key, v) :: kvs, r6)
                    | none => none
                  else if e = rbraceC then some ([(key, v)], r5)
                  else none
                | [] => none
              | none => none
            else none
          | [] => none
        | none => none
      else none
    | [] => none

/-- Parse the elements of a JSON array after the opening bracket (at least one
element); consumes the closing bracket. -/
def parseElems : Nat → List Char → Option (List JVal × List Char)
  | 0, _ => none
  | Nat.succ f, cs =>
    match parseVal f cs with
    | some (v, r1) =>
      match r1.dropWhile isJsonWs with
      | d :: r2 =>
        if d = ',' then
          match parseElems f r2 with
          | some (xs, r3) => some (v :: xs, r3)
          | none => none
        else if d = ']' then some ([v], r2)
        else none
      | [] => none
    | none => none

end

/-- `json.loads`: parse a whole string as one JSON value; trailing data other
than whitespace is an error ("Extra data"), as is any parse failure. -/
def jsonLoads (l : List Char) : Option JVal :=
  match parseVal (l.length + 1) l with
  | some (v, rest) => if rest.dropWhile isJsonWs = [] then some v else none
  | none => none

/-- The cleaning performed by `safe_json_loads` before `json.loads`: strip
whitespace; if the text starts with three backticks, strip backticks from both
ends and, when both a `\x7b` and a `\x7d` are present, slice to the inclusive
range from the first `\x7b` to the last `\x7d`. -/
def cleanPayload (payload : List Char) : List Char :=
  let txt := pyStrip payload
  if List.isPrefixOf ("```".toList) txt then
    let t := pyStripBt txt
    let fb := pyFind t lbraceC
    let lb := pyRfind t rbraceC
    if fb ≠ -1 ∧ lb ≠ -1 then pySlice t fb.toNat (lb.toNat + 1) else t
  else txt

/-- `safe_json_loads`: clean the payload, then `json.loads` it; `none` models
the raised decode exception. -/
def safe_json_loads (payload : List Char) : Option JVal :=
  jsonLoads (cleanPayload payload)

/-- Models the rendering of the `json.JSONDecodeError` message interpolated
into the 502 detail (Python's exact text carries position information, which
is abstracted here; only the two error families are distinguished). -/
def jsonErrMsg (l : List Char) : String :=
  match parseVal (l.length + 1) l with
  | some _ => "Extra data"
  | none => "Expecting value"

/-- One quiz question in the exact response format (`QuizItem` pydantic
model): `pregunta`, `opciones`, `respuesta`, `explanation`. -/
structure QuizItem where
  pregunta : List Char
  opciones : List (List Char)
  respuesta : Int
  explanation : List Char
  deriving DecidableEq, Repr

/-- `QuizPayload` pydantic model: the full shape expected from the model. -/
structure QuizPayload where
  texto : List Char
  preguntas : List QuizItem
  deriving DecidableEq, Repr

/-- `RSVPIn` pydantic model (validated request). -/
structure RSVPIn where
  topic : List Char
  palabras_objetivo : Int
  num_preguntas : Int
  deriving DecidableEq, Repr

/-- `RSVPOut` response model. -/
structure RSVPOut where
  id : String
  texto : List Char
  palabras : List (List Char)
  deriving DecidableEq, Repr

/-- `QuizIn` pydantic model (validated request). -/
structure QuizIn where
  texto : List Char
  num_preguntas : Int
  deriving DecidableEq, Repr

/-- `QuizOut` response model. -/
structure QuizOut where
  rsvp_session_id : String
  preguntas : List QuizItem
  deriving DecidableEq, Repr

/-- An `HTTPException(status_code, detail)`. -/
structure HTTPError where
  status : Nat
  detail : String
  deriving DecidableEq, Repr

/-- Decidable equality for `Except`, used to evaluate handler outcomes on
concrete inputs. -/
instance {ε α : Type} [DecidableEq ε] [DecidableEq α] : DecidableEq (Except ε α) := fun x y =>
  match x, y with
  | Except.error a, Except.error b =>
    if h : a = b then isTrue (by rw [h]) else isFalse (by intro hc; injection hc; contradiction)
  | Except.ok a, Except.ok b =>
    if h : a = b then isTrue (by rw [h]) else isFalse (by intro hc; injection hc; contradiction)
  | Except.error _, Except.ok _ => isFalse (fun hc => Except.noConfusion hc)
  | Except.ok _, Except.error _ => isFalse (fun hc => Except.noConfusion hc)

/-- Python `dict` lookup on the association list built by the JSON parser:
a later duplicate key overwrites an earlier one. -/
def lookupJ : List (List Char × JVal) → List Char → Option JVal
  | [], _ => none
  | (k, v) :: t, key =>
    match lookupJ t key with
    | some r => some r
    | none => if k = key then some v else none

/-- Extract a list of strings from a JSON array's elements (the validation of
`opciones : List[str]`); fails on any non-string element. -/
def asStrList : List JVal → Option (List (List Char))
  | [] => some []
  | JVal.JStr s :: t => (asStrList t).map (fun r => s :: r)
  | _ :: _ => none

/-- A JSON number lexeme denotes an `int` when it has no fraction or
exponent marker. -/
def isIntLex (l : List Char) : Bool :=
  !(l.any (fun c => c = '.' || c = 'e' || c = 'E' || c = 'I' || c = 'N'))

/-- Decimal digits to a natural number. -/
def digitsToNat (l : List Char) : Nat :=
  l.foldl (fun n c => n * 10 + (c.toNat - 48)) 0

/-- An integer JSON lexeme to an `Int`. -/
def lexToInt : List Char → Int
  | '-' :: t => -(digitsToNat t : Int)
  | t => (digitsToNat t : Int)

/-- Validation of one parsed JSON value against the `QuizItem` model:
`pregunta : str`, `opciones : List[str]`, `respuesta : int`,
`explanation : str`.  Extra keys are ignored (pydantic default). -/
def toQuizItem (v : JVal) : Option QuizItem :=
  match v with
  | JVal.JObj kvs =>
    match lookupJ kvs ("pregunta".toList), lookupJ kvs ("opciones".toList),
          lookupJ kvs ("respuesta".toList), lookupJ kvs ("explanation".toList) with
    | some (JVal.JStr p), some (JVal.JArr xs), some (JVal.JNum r), some (JVal.JStr e) =>
      if isIntLex r then (asStrList xs).map (fun os => ⟨p, os, lexToInt r, e⟩)
      else none
    | _, _, _, _ => none
  | _ => none

/-- Validate each element of `preguntas` in order. -/
def itemsOf : List JVal → Option (List QuizItem)
  | [] => some []
  | x :: t =>
    match toQuizItem x with
    | some i => (itemsOf t).map (fun r => i :: r)
    | none => none

/-- `QuizPayload(**data)`: `data` must be a JSON object (`**` requires a
mapping) with a string `texto` and a list `preguntas` of valid items. -/
def toQuizPayload (v : JVal) : Option QuizPayload :=
  match v with
  | JVal.JObj kvs =>
    match lookupJ kvs ("texto".toList), lookupJ kvs ("preguntas".toList) with
    | some (JVal.JStr t), some (JVal.JArr xs) => (itemsOf xs).map (fun is => ⟨t, is⟩)
    | _, _ => none
  | _ => none

/-- Models the rendering of the pydantic `ValidationError` (or `TypeError`)
message interpolated into the 422 detail; the exact text is abstracted. -/
def validationErrMsg (_ : JVal) : String := "validation error"

/-- `call_gemini`: `none` models a response with no candidates (502); on
success the response text is stripped. -/
def call_gemini (resp : Option (List Char)) : Except HTTPError (List Char) :=
  match resp with
  | none => Except.error ⟨502, "Gemini no devolvió contenido"⟩
  | some s => Except.ok (pyStrip s)

/-- `generate_rsvp` handler body, with the upstream outcome `resp` and the
minted uuid `fresh` as parameters. -/
def generate_rsvp (fresh : String) (resp : Option (List Char)) (_ : RSVPIn) :
    Except HTTPError RSVPOut :=
  match call_gemini resp with
  | Except.error e => Except.error e
  | Except.ok texto => Except.ok ⟨fresh, texto, pySplitWs texto⟩

/-- `generate_quiz` handler body, with the upstream outcome `resp` and the
minted uuid `fresh` as parameters. -/
def generate_quiz (fresh : String) (resp : Option (List Char)) (_ : QuizIn) :
    Except HTTPError QuizOut :=
  match call_gemini resp with
  | Except.error e => Except.error e
  | Except.ok raw =>
    match safe_json_loads raw with
    | none =>
      Except.error ⟨502, "Respuesta de Gemini no es JSON válido: " ++ jsonErrMsg (cleanPayload raw)⟩
    | some data =>
      match toQuizPayload data with
      | none => Except.error ⟨422, "Estructura de quiz inválida: " ++ validationErrMsg data⟩
      | some quiz => Except.ok ⟨fresh, quiz.preguntas⟩

/-- Request validation for `RSVPIn` (`palabras_objetivo` in `[80,800]`,
`num_preguntas` in `[3,12]`), performed by pydantic before the handler runs. -/
def parseRSVPIn (topic : List Char) (palabras_objetivo num_preguntas : Int) :
    Except HTTPError RSVPIn :=
  if 80 ≤ palabras_objetivo ∧ palabras_objetivo ≤ 800 then
    if 3 ≤ num_preguntas ∧ num_preguntas ≤ 12 then
      Except.ok ⟨topic, palabras_objetivo, num_preguntas⟩
    else Except.error ⟨422, "Input validation error: num_preguntas"⟩
  else Except.error ⟨422, "Input validation error: palabras_objetivo"⟩

/-- Request validation for `QuizIn` (`num_preguntas` in `[3,12]`). -/
def parseQuizIn (texto : List Char) (num_preguntas : Int) : Except HTTPError QuizIn :=
  if 3 ≤ num_preguntas ∧ num_preguntas ≤ 12 then Except.ok ⟨texto, num_preguntas⟩
  else Except.error ⟨422, "Input validation error: num_preguntas"⟩

/-- The `/api/rsvp` endpoint: validation, then the handler. -/
def rsvpEndpoint (resp : Option (List Char)) (fresh : String) (topic : List Char)
    (palabras_objetivo num_preguntas : Int) : Except HTTPError RSVPOut :=
  match parseRSVPIn topic palabras_objetivo num_preguntas with
  | Except.error e => Except.error e
  | Except.ok p => generate_rsvp fresh resp p

/-- The `/api/quiz` endpoint: validation, then the handler. -/
def quizEndpoint (resp : Option (List Char)) (fresh : String) (texto : List Char)
    (num_preguntas : Int) : Except HTTPError QuizOut :=
  match parseQuizIn texto num_preguntas with
  | Except.error e => Except.error e
  | Except.ok p => generate_quiz fresh resp p

/-- Observation: the outcome is the 502 raised when the upstream returned no
content. -/
def isEmpty502 (r : Except HTTPError QuizOut) : Prop :=
  r = Except.error ⟨502, "Gemini no devolvió contenido"⟩

/-- Observation: the outcome is the 502 raised for upstream text that is not
valid JSON; its message carries the parse failure reason after the fixed
prefix. -/
def isParse502 (r : Except HTTPError QuizOut) : Prop :=
  ∃ m, r = Except.error ⟨502, "Respuesta de Gemini no es JSON válido: " ++ m⟩

/-- Observation: the outcome is the 422 raised for parsed JSON that does not
satisfy the quiz schema; its message carries the validation failure reason
after the fixed prefix. -/
def isStruct422 (r : Except HTTPError QuizOut) : Prop :=
  ∃ m, r = Except.error ⟨422, "Estructura de quiz inválida: " ++ m⟩

/-- Independent specification of whitespace tokenization: split on whitespace,
then discard the empty chunks produced by leading/trailing/repeated
whitespace. -/
def tokenizeSpec (l : List Char) : List (List Char) :=
  (l.splitOnP isPyWs).filter (fun w => w ≠ [])

/-- `l` has no occurrence of two consecutive space characters. -/
def noDoubleSpace : List Char → Bool
  | [] => true
  | [_] => true
  | a :: b :: t => !(a = ' ' && b = ' ') && noDoubleSpace (b :: t)

/-- A fenced block: three backticks, a marker such as `json`, a newline, the
payload, a newline, three closing backticks. -/
def wrapFence (label J : List Char) : List Char :=
  ("```".toList) ++ label ++ '\n' :: (J ++ '\n' :: ("```".toList))

/-! ### List infrastructure lemmas -/

theorem head?_dropWhile_not (p : Char → Bool) (l : List Char) :
    ∀ a, (l.dropWhile p).head? = some a → p a = false := by
  induction l with
  | nil => intro a h; simp at h
  | cons c t ih =>
    intro a h
    rw [List.dropWhile_cons] at h
    by_cases hc : p c = true
    · rw [if_pos hc] at h; exact ih a h
    · rw [if_neg hc] at h
      simp only [List.head?_cons, Option.some.injEq] at h
      subst h; simpa using hc

theorem dropWhile_eq_self_of_head (p : Char → Bool) (l : List Char) (a : Char)
    (hh : l.head? = some a) (ha : p a = false) : l.dropWhile p = l := by
  cases l with
  | nil => simp at hh
  | cons c t =>
    simp only [List.head?_cons, Option.some.injEq] at hh
    subst hh
    rw [List.dropWhile_cons, if_neg (by simp [ha])]

theorem all_of_dropWhile_nil (p : Char → Bool) (l : List Char)
    (h : l.dropWhile p = []) : ∀ c ∈ l, p c = true := by
  induction l with
  | nil => intro c hc; simp at hc
  | cons a t ih =>
    intro c hc
    rw [List.dropWhile_cons] at h
    by_cases ha : p a = true
    · rw [if_pos ha] at h
      rcases List.mem_cons.mp hc with rfl | hct
      · exact ha
      · exact ih h c hct
    · rw [if_neg ha] at h; simp at h

theorem dropWhile_append_all (p : Char → Bool) (A l : List Char)
    (hA : ∀ c ∈ A, p c = true) : (A ++ l).dropWhile p = l.dropWhile p := by
  induction A with
  | nil => simp
  | cons a t ih =>
    simp only [List.cons_append, List.dropWhile_cons, if_pos (hA a (List.mem_cons_self a t))]
    exact ih (fun c hc => hA c (List.mem_cons_of_mem a hc))

theorem dropWhile_mono_sub (p q : Char → Bool) (l : List Char) (a : Char) (t : List Char)
    (hpq : ∀ c, p c = true → q c = true)
    (h : l.dropWhile p = a :: t) (ha : q a = false) : l.dropWhile q = a :: t := by
  induction l with
  | nil => simp at h
  | cons c s ih =>
    rw [List.dropWhile_cons] at h
    by_cases hc : p c = true
    · rw [if_pos hc] at h
      rw [List.dropWhile_cons, if_pos (hpq c hc)]
      exact ih h
    · rw [if_neg hc] at h
      have hca : c = a := by simpa using congrArg List.head? h
      subst hca
      rw [List.dropWhile_cons, if_neg (by simp [ha])]
      exact h

theorem getLast?_append_right (l1 l2 : List Char) (h : l2 ≠ []) :
    (l1 ++ l2).getLast? = l2.getLast? := by
  rw [List.getLast?_append]
  cases h2 : l2.getLast? with
  | none => exact absurd (List.getLast?_eq_none_iff.mp h2) h
  | some b => rfl

/-! ### stripEnds lemmas -/

theorem stripEnds_decomp (p : Char → Bool) (l : List Char) :
    ∃ u v, l = u ++ stripEnds p l ++ v ∧ (∀ c ∈ u, p c = true) ∧ ∀ c ∈ v, p c = true := by
  refine ⟨l.takeWhile p, ((l.dropWhile p).reverse.takeWhile p).reverse, ?_, ?_, ?_⟩
  · have hD : stripEnds p l ++ ((l.dropWhile p).reverse.takeWhile p).reverse = l.dropWhile p := by
      rw [stripEnds, ← List.reverse_append, List.takeWhile_append_dropWhile, List.reverse_reverse]
    rw [List.append_assoc, hD, List.takeWhile_append_dropWhile]
  · exact fun c hc => List.mem_takeWhile_imp hc
  · intro c hc
    exact List.mem_takeWhile_imp (List.mem_reverse.mp hc)

theorem stripEnds_head (p : Char → Bool) (l : List Char) (a : Char)
    (h : (stripEnds p l).head? = some a) : p a = false := by
  rw [stripEnds, List.head?_reverse] at h
  set X := (l.dropWhile p).reverse.dropWhile p with hX
  have hXne : X ≠ [] := by
    intro hn; rw [hn] at h; simp at h
  have hdc : (l.dropWhile p).reverse = (l.dropWhile p).reverse.takeWhile p ++ X := by
    rw [hX, List.takeWhile_append_dropWhile]
  have h1 : X.getLast? = (l.dropWhile p).reverse.getLast? := by
    rw [hdc, getLast?_append_right _ _ hXne]
  rw [h1, List.getLast?_reverse] at h
  exact head?_dropWhile_not p l a h

theorem stripEnds_last (p : Char → Bool) (l : List Char) (a : Char)
    (h : (stripEnds p l).getLast? = some a) : p a = false := by
  rw [stripEnds, List.getLast?_reverse] at h
  exact head?_dropWhile_not p (l.dropWhile p).reverse a h

theorem stripEnds_idem (p : Char → Bool) (l : List Char) :
    stripEnds p (stripEnds p l) = stripEnds p l := by
  have h1 : (stripEnds p l).dropWhile p = stripEnds p l := by
    cases hE2 : stripEnds p l with
    | nil => simp
    | cons a t =>
      have ha : p a = false := stripEnds_head p l a (by rw [hE2]; rfl)
      rw [List.dropWhile_cons, if_neg (by simp [ha])]
  have h2 : (stripEnds p l).reverse.dropWhile p = (stripEnds p l).reverse := by
    cases hE2 : (stripEnds p l).reverse with
    | nil => simp
    | cons b s =>
      have hb : p b = false := by
        refine stripEnds_last p l b ?_
        rw [← List.head?_reverse, hE2]; rfl
      rw [List.dropWhile_cons, if_neg (by simp [hb])]
  show (((stripEnds p l).dropWhile p).reverse.dropWhile p).reverse = stripEnds p l
  rw [h1, h2, List.reverse_reverse]

theorem cleanPayload_strip (x : List Char) : cleanPayload (pyStrip x) = cleanPayload x := by
  unfold cleanPayload
  rw [show pyStrip (pyStrip x) = pyStrip x from stripEnds_idem _ _]

theorem safe_json_loads_strip (x : List Char) :
    safe_json_loads (pyStrip x) = safe_json_loads x := by
  unfold safe_json_loads
  rw [cleanPayload_strip]

/-! ### pyFind / pyRfind / pySlice lemmas -/

theorem pyFind_first (c : Char) (P S : List Char) (h : ∀ x ∈ P, x ≠ c) :
    pyFind (P ++ c :: S) c = (P.length : Int) := by
  induction P with
  | nil => simp [pyFind]
  | cons a t ih =>
    have ha : a ≠ c := h a (List.mem_cons_self a t)
    have ht : pyFind (t ++ c :: S) c = (t.length : Int) :=
      ih (fun x hx => h x (List.mem_cons_of_mem a hx))
    simp only [List.cons_append, pyFind, List.append_eq, if_neg ha, ht]
    rw [if_neg (show ¬((t.length : Int) = -1) by omega)]
    simp only [List.length_cons]
    push_cast
    ring

theorem pyRfind_last (c : Char) (P S : List Char) (h : ∀ x ∈ S, x ≠ c) :
    pyRfind (P ++ c :: S) c = (P.length : Int) := by
  unfold pyRfind
  have hrev : (P ++ c :: S).reverse = S.reverse ++ c :: P.reverse := by
    simp [List.reverse_append]
  rw [hrev, pyFind_first c S.reverse P.reverse (fun x hx => h x (List.mem_reverse.mp hx))]
  rw [if_neg (show ¬((S.reverse.length : Int) = -1) by omega)]
  simp only [List.length_append, List.length_cons, List.length_reverse]
  push_cast
  ring

theorem pySlice_mid (P M S : List Char) :
    pySlice (P ++ M ++ S) P.length (P.length + M.length) = M := by
  unfold pySlice
  have h1 : (P ++ M ++ S).take (P.length + M.length) = P ++ M := by
    have : P.length + M.length = (P ++ M).length := (List.length_append P M).symm
    rw [this, List.take_left]
  rw [h1, List.drop_left]

/-! ### Parser consumption lemmas: the remainder is a suffix of the input -/

theorem dropWhile_isSuffix (p : Char → Bool) (l : List Char) : l.dropWhile p <:+ l :=
  ⟨l.takeWhile p, List.takeWhile_append_dropWhile p l⟩

theorem suffix_cons_of {r l : List Char} (a : Char) (h : r <:+ l) : r <:+ a :: l :=
  h.trans (List.suffix_cons a l)

theorem psb_consumes (cs : List Char) : ∀ b rest,
    parseStringBody cs = some (b, rest) → rest <:+ cs := by
  induction cs using parseStringBody.induct with
  | case1 =>
    intro b rest h
    rw [parseStringBody.eq_def] at h
    simp at h
  | case2 cs =>
    intro b rest h
    rw [parseStringBody.eq_def] at h
    simp at h
    obtain ⟨-, rfl⟩ := h
    exact List.suffix_cons _ _
  | case3 hne =>
    intro b rest h
    rw [parseStringBody.eq_def] at h
    simp [hne] at h
  | case4 h1 h2 h3 h4 cs3 hhex hne ih =>
    intro b rest h
    rw [parseStringBody.eq_def] at h
    simp [hhex, hne] at h
    obtain ⟨a, hp, -⟩ := h
    exact suffix_cons_of _ (suffix_cons_of _ (suffix_cons_of _ (suffix_cons_of _
      (suffix_cons_of _ (suffix_cons_of _ (ih a rest hp))))))
  | case5 h1 h2 h3 h4 cs3 hhex hne =>
    intro b rest h
    rw [parseStringBody.eq_def] at h
    simp [hhex, hne] at h
  | case6 cs hshape hne =>
    intro b rest h
    rw [parseStringBody.eq_def] at h
    simp [hne] at h
  | case7 e cs hu hes hne ih =>
    intro b rest h
    rw [parseStringBody.eq_def] at h
    simp [hu, hes, hne] at h
    obtain ⟨a, hp, -⟩ := h
    exact suffix_cons_of _ (suffix_cons_of _ (ih a rest hp))
  | case8 e cs hu hes hne =>
    intro b rest h
    rw [parseStringBody.eq_def] at h
    simp [hu, hes, hne] at h
  | case9 c cs hq hb hctl =>
    intro b rest h
    rw [parseStringBody.eq_def] at h
    simp [hq, hb, hctl] at h
  | case10 c cs hq hb hctl ih =>
    intro b rest h
    rw [parseStringBody.eq_def] at h
    simp [hq, hb, hctl] at h
    obtain ⟨a, hp, -⟩ := h
    exact suffix_cons_of _ (ih a rest hp)

theorem pip_consumes (l : List Char) (ip rest : List Char)
    (h : parseIntPart l = some (ip, rest)) : rest <:+ l := by
  cases l with
  | nil => simp [parseIntPart] at h
  | cons c t =>
    simp only [parseIntPart.eq_def] at h
    by_cases h0 : c = '0'
    · simp [h0] at h
      obtain ⟨-, rfl⟩ := h
      exact List.suffix_cons _ _
    · by_cases hd : c.isDigit
      · simp [h0, hd] at h
        obtain ⟨-, rfl⟩ := h
        exact suffix_cons_of _ (dropWhile_isSuffix _ _)
      · simp [h0, hd] at h

theorem pfp_consumes (l : List Char) (fp rest : List Char)
    (h : parseFracPart l = some (fp, rest)) : rest <:+ l := by
  cases l with
  | nil =>
    simp [parseFracPart] at h
    obtain ⟨-, rfl⟩ := h
    exact List.suffix_rfl
  | cons c t =>
    simp only [parseFracPart.eq_def] at h
    by_cases hdot : c = '.'
    · by_cases hemp : t.takeWhile Char.isDigit = []
      · simp [hdot, hemp] at h
      · simp [hdot, hemp] at h
        obtain ⟨-, rfl⟩ := h
        exact suffix_cons_of _ (dropWhile_isSuffix _ _)
    · simp [hdot] at h
      obtain ⟨-, rfl⟩ := h
      exact List.suffix_rfl

theorem pep_consumes (l : List Char) (ep rest : List Char)
    (h : parseExpPart l = some (ep, rest)) : rest <:+ l := by
  cases l with
  | nil =>
    simp [parseExpPart] at h
    obtain ⟨-, rfl⟩ := h
    exact List.suffix_rfl
  | cons c t =>
    simp only [parseExpPart.eq_def] at h
    by_cases he : (c = 'e' || c = 'E') = true
    · rw [if_pos he] at h
      cases t with
      | nil => simp at h
      | cons s t2 =>
        by_cases hs : (s = '+' || s = '-') = true
        · by_cases hemp : t2.takeWhile Char.isDigit = []
          · simp [hs, hemp] at h
          · simp [hs, hemp] at h
            obtain ⟨-, rfl⟩ := h
            exact suffix_cons_of _ (suffix_cons_of _ (dropWhile_isSuffix _ _))
        · by_cases hemp : (s :: t2).takeWhile Char.isDigit = []
          · simp [hs, hemp] at h
          · simp [hs, hemp] at h
            obtain ⟨-, rfl⟩ := h
            exact suffix_cons_of _ (dropWhile_isSuffix _ _)
    · rw [if_neg he] at h
      simp at h
      obtain ⟨-, rfl⟩ := h
      exact List.suffix_rfl

theorem pns_snd_suffix (l : List Char) : (parseNumSign l).2 <:+ l := by
  cases l with
  | nil => simp [parseNumSign]
  | cons c t =>
    simp only [parseNumSign.eq_def]
    by_cases hm : c = '-'
    · simp only [hm, if_pos]
      exact List.suffix_cons _ _
    · simp [hm]

theorem pnum_consumes (l : List Char) (lex rest : List Char)
    (h : parseNumber l = some (lex, rest)) : rest <:+ l := by
  simp only [parseNumber.eq_def] at h
  by_cases hinf : List.isPrefixOf ("-Infinity".toList) l = true
  · rw [if_pos hinf] at h
    simp only [Option.some.injEq, Prod.mk.injEq] at h
    obtain ⟨-, rfl⟩ := h
    exact ⟨l.take 9, (List.take_append_drop 9 l)⟩
  · rw [if_neg hinf] at h
    cases hip : parseIntPart (parseNumSign l).2 with
    | none => simp only [hip] at h; exact absurd h (by simp)
    | some pr1 =>
      obtain ⟨ip, l2⟩ := pr1
      simp only [hip] at h
      cases hfp : parseFracPart l2 with
      | none => simp only [hfp] at h; exact absurd h (by simp)
      | some pr2 =>
        obtain ⟨fp, l3⟩ := pr2
        simp only [hfp] at h
        cases hep : parseExpPart l3 with
        | none => simp only [hep] at h; exact absurd h (by simp)
        | some pr3 =>
          obtain ⟨ep, l4⟩ := pr3
          simp only [hep, Option.some.injEq, Prod.mk.injEq] at h
          obtain ⟨-, rfl⟩ := h
          exact (((pep_consumes l3 ep l4 hep).trans
            (pfp_consumes l2 fp l3 hfp)).trans
            (pip_consumes (parseNumSign l).2 ip l2 hip)).trans (pns_snd_suffix l)

theorem drop_isSuffix (l : List Char) (n : Nat) : l.drop n <:+ l :=
  ⟨l.take n, List.take_append_drop n l⟩

theorem sfx_of_dropWhile_eq {cs l : List Char} (heq : cs.dropWhile isJsonWs = l) :
    l <:+ cs := heq ▸ dropWhile_isSuffix isJsonWs cs

theorem parse_consumes : ∀ f : Nat,
    (∀ cs v rest, parseVal f cs = some (v, rest) → rest <:+ cs) ∧
    (∀ cs kvs rest, parseMembers f cs = some (kvs, rest) → rbraceC :: rest <:+ cs) ∧
    (∀ cs xs rest, parseElems f cs = some (xs, rest) → rest <:+ cs) := by
  intro f
  induction f with
  | zero =>
    refine ⟨?_, ?_, ?_⟩
    · intro cs v rest h; simp [parseVal] at h
    · intro cs kvs rest h; simp [parseMembers] at h
    · intro cs xs rest h; simp [parseElems] at h
  | succ f ih =>
    obtain ⟨ihA, ihB, ihC⟩ := ih
    refine ⟨?_, ?_, ?_⟩
    · intro cs v rest h
      rw [parseVal.eq_def] at h
      cases hdw : cs.dropWhile isJsonWs with
      | nil => simp only [hdw] at h; exact absurd h (by simp)
      | cons c r1 =>
        simp only [hdw] at h
        have hr1cs : r1 <:+ cs := (List.suffix_cons c r1).trans (sfx_of_dropWhile_eq hdw)
        by_cases hq : c = quoteC
        · rw [if_pos hq] at h
          cases hp : parseStringBody r1 with
          | none => simp only [hp] at h; exact absurd h (by simp)
          | some pr =>
            simp only [hp, Option.map_some, Option.some.injEq, Prod.mk.injEq] at h
            obtain ⟨-, rfl⟩ := h
            exact (psb_consumes r1 pr.1 pr.2 (by rw [hp])).trans hr1cs
        · rw [if_neg hq] at h
          by_cases hl : c = lbraceC
          · rw [if_pos hl] at h
            cases hdw2 : r1.dropWhile isJsonWs with
            | nil => simp only [hdw2] at h; exact absurd h (by simp)
            | cons d r2 =>
              simp only [hdw2] at h
              by_cases hd : d = rbraceC
              · rw [if_pos hd] at h
                simp only [Option.some.injEq, Prod.mk.injEq, List.drop_succ_cons,
                  List.drop_zero] at h
                obtain ⟨-, rfl⟩ := h
                exact ((List.suffix_cons d r2).trans (sfx_of_dropWhile_eq hdw2)).trans hr1cs
              · rw [if_neg hd] at h
                cases hm : parseMembers f r1 with
                | none => simp only [hm] at h; exact absurd h (by simp)
                | some pr =>
                  obtain ⟨kvs, r3⟩ := pr
                  simp only [hm, Option.some.injEq, Prod.mk.injEq] at h
                  obtain ⟨-, rfl⟩ := h
                  exact ((List.suffix_cons rbraceC r3).trans (ihB r1 kvs r3 hm)).trans hr1cs
          · rw [if_neg hl] at h
            by_cases hbk : c = '['
            · rw [if_pos hbk] at h
              cases hdw2 : r1.dropWhile isJsonWs with
              | nil => simp only [hdw2] at h; exact absurd h (by simp)
              | cons d r2 =>
                simp only [hdw2] at h
                by_cases hd : d = ']'
                · rw [if_pos hd] at h
                  simp only [Option.some.injEq, Prod.mk.injEq, List.drop_succ_cons,
                    List.drop_zero] at h
                  obtain ⟨-, rfl⟩ := h
                  exact ((List.suffix_cons d r2).trans (sfx_of_dropWhile_eq hdw2)).trans hr1cs
                · rw [if_neg hd] at h
                  cases he : parseElems f r1 with
                  | none => simp only [he] at h; exact absurd h (by simp)
                  | some pr =>
                    obtain ⟨xs, r3⟩ := pr
                    simp only [he, Option.some.injEq, Prod.mk.injEq] at h
                    obtain ⟨-, rfl⟩ := h
                    exact (ihC r1 xs r3 he).trans hr1cs
            · rw [if_neg hbk] at h
              by_cases ht : c = 't'
              · rw [if_pos ht] at h
                by_cases hpre : List.isPrefixOf ("rue".toList) r1 = true
                · rw [if_pos hpre] at h
                  simp only [Option.some.injEq, Prod.mk.injEq] at h
                  obtain ⟨-, rfl⟩ := h
                  exact (drop_isSuffix r1 3).trans hr1cs
                · rw [if_neg hpre] at h; exact absurd h (by simp)
              · rw [if_neg ht] at h
                by_cases hf : c = 'f'
                · rw [if_pos hf] at h
                  by_cases hpre : List.isPrefixOf ("alse".toList) r1 = true
                  · rw [if_pos hpre] at h
                    simp only [Option.some.injEq, Prod.mk.injEq] at h
                    obtain ⟨-, rfl⟩ := h
                    exact (drop_isSuffix r1 4).trans hr1cs
                  · rw [if_neg hpre] at h; exact absurd h (by simp)
                · rw [if_neg hf] at h
                  by_cases hn : c = 'n'
                  · rw [if_pos hn] at h
                    by_cases hpre : List.isPrefixOf ("ull".toList) r1 = true
                    · rw [if_pos hpre] at h
                      simp only [Option.some.injEq, Prod.mk.injEq] at h
                      obtain ⟨-, rfl⟩ := h
                      exact (drop_isSuffix r1 3).trans hr1cs
                    · rw [if_neg hpre] at h; exact absurd h (by simp)
                  · rw [if_neg hn] at h
                    by_cases hN : c = 'N'
                    · rw [if_pos hN] at h
                      by_cases hpre : List.isPrefixOf ("aN".toList) r1 = true
                      · rw [if_pos hpre] at h
                        simp only [Option.some.injEq, Prod.mk.injEq] at h
                        obtain ⟨-, rfl⟩ := h
                        exact (drop_isSuffix r1 2).trans hr1cs
                      · rw [if_neg hpre] at h; exact absurd h (by simp)
                    · rw [if_neg hN] at h
                      by_cases hI : c = 'I'
                      · rw [if_pos hI] at h
                        by_cases hpre : List.isPrefixOf ("nfinity".toList) r1 = true
                        · rw [if_pos hpre] at h
                          simp only [Option.some.injEq, Prod.mk.injEq] at h
                          obtain ⟨-, rfl⟩ := h
                          exact (drop_isSuffix r1 7).trans hr1cs
                        · rw [if_neg hpre] at h; exact absurd h (by simp)
                      · rw [if_neg hI] at h
                        cases hnum : parseNumber (c :: r1) with
                        | none => simp only [hnum] at h; exact absurd h (by simp)
                        | some pr =>
                          obtain ⟨lex, r2⟩ := pr
                          simp only [hnum, Option.some.injEq, Prod.mk.injEq] at h
                          obtain ⟨-, rfl⟩ := h
                          have h1 : r2 <:+ c :: r1 := pnum_consumes (c :: r1) lex r2 hnum
                          exact h1.trans (sfx_of_dropWhile_eq hdw)
    · intro cs kvs rest h
      rw [parseMembers.eq_def] at h
      cases hdw : cs.dropWhile isJsonWs with
      | nil => simp only [hdw] at h; exact absurd h (by simp)
      | cons k r1 =>
        simp only [hdw] at h
        have hr1cs : r1 <:+ cs := (List.suffix_cons k r1).trans (sfx_of_dropWhile_eq hdw)
        by_cases hq : k = quoteC
        · rw [if_pos hq] at h
          cases hp : parseStringBody r1 with
          | none => simp only [hp] at h; exact absurd h (by simp)
          | some pr =>
            obtain ⟨key, r2⟩ := pr
            simp only [hp] at h
            have hr2 : r2 <:+ r1 := psb_consumes r1 key r2 hp
            cases hdw2 : r2.dropWhile isJsonWs with
            | nil => simp only [hdw2] at h; exact absurd h (by simp)
            | cons d r3 =>
              simp only [hdw2] at h
              have hr3 : r3 <:+ r2 :=
                (List.suffix_cons d r3).trans (sfx_of_dropWhile_eq hdw2)
              by_cases hcol : d = ':'
              · rw [if_pos hcol] at h
                cases hv : parseVal f r3 with
                | none => simp only [hv] at h; exact absurd h (by simp)
                | some pr2 =>
                  obtain ⟨v, r4⟩ := pr2
                  simp only [hv] at h
                  have hr4 : r4 <:+ r3 := ihA r3 v r4 hv
                  cases hdw3 : r4.dropWhile isJsonWs with
                  | nil => simp only [hdw3] at h; exact absurd h (by simp)
                  | cons e r5 =>
                    simp only [hdw3] at h
                    by_cases hcom : e = ','
                    · rw [if_pos hcom] at h
                      cases hms : parseMembers f r5 with
                      | none => simp only [hms] at h; exact absurd h (by simp)
                      | some pr3 =>
                        obtain ⟨kvs2, r6⟩ := pr3
                        simp only [hms, Option.some.injEq, Prod.mk.injEq] at h
                        obtain ⟨-, rfl⟩ := h
                        have h6 : rbraceC :: r6 <:+ r5 := ihB r5 kvs2 r6 hms
                        have h5 : r5 <:+ r4 :=
                          (List.suffix_cons e r5).trans (sfx_of_dropWhile_eq hdw3)
                        exact ((((h6.trans h5).trans hr4).trans hr3).trans hr2).trans hr1cs
                    · rw [if_neg hcom] at h
                      by_cases hrb : e = rbraceC
                      · rw [if_pos hrb] at h
                        simp only [Option.some.injEq, Prod.mk.injEq] at h
                        obtain ⟨-, rfl⟩ := h
                        have h5 : e :: r5 <:+ r4 := sfx_of_dropWhile_eq hdw3
                        rw [hrb] at h5
                        exact (((h5.trans hr4).trans hr3).trans hr2).trans hr1cs
                      · rw [if_neg hrb] at h; exact absurd h (by simp)
              · rw [if_neg hcol] at h; exact absurd h (by simp)
        · rw [if_neg hq] at h; exact absurd h (by simp)
    · intro cs xs rest h
      rw [parseElems.eq_def] at h
      cases hv : parseVal f cs with
      | none => simp only [hv] at h; exact absurd h (by simp)
      | some pr =>
        obtain ⟨v, r1⟩ := pr
        simp only [hv] at h
        have hr1 : r1 <:+ cs := ihA cs v r1 hv
        cases hdw : r1.dropWhile isJsonWs with
        | nil => simp only [hdw] at h; exact absurd h (by simp)
        | cons d r2 =>
          simp only [hdw] at h
          have hr2 : r2 <:+ r1 := (List.suffix_cons d r2).trans (sfx_of_dropWhile_eq hdw)
          by_cases hcom : d = ','
          · rw [if_pos hcom] at h
            cases he : parseElems f r2 with
            | none => simp only [he] at h; exact absurd h (by simp)
            | some pr2 =>
              obtain ⟨ys, r3⟩ := pr2
              simp only [he, Option.some.injEq, Prod.mk.injEq] at h
              obtain ⟨-, rfl⟩ := h
              exact ((ihC r2 ys r3 he).trans hr2).trans hr1
          · rw [if_neg hcom] at h
            by_cases hbk : d = ']'
            · rw [if_pos hbk] at h
              simp only [Option.some.injEq, Prod.mk.injEq] at h
              obtain ⟨-, rfl⟩ := h
              exact hr2.trans hr1
            · rw [if_neg hbk] at h; exact absurd h (by simp)

theorem takeWhile_append_cons (cs l : List Char) (c : Char) (p : Char → Bool)
    (heq : cs.dropWhile p = c :: l) : cs = cs.takeWhile p ++ c :: l := by
  conv_lhs => rw [← List.takeWhile_append_dropWhile p cs]
  rw [heq]

theorem parseVal_obj_shape (f : Nat) (cs : List Char) (m : List (List Char × JVal))
    (rest : List Char) (h : parseVal f cs = some (JVal.JObj m, rest)) :
    (∃ t, cs.dropWhile isJsonWs = lbraceC :: t) ∧ ∃ p, cs = p ++ rbraceC :: rest := by
  cases f with
  | zero => simp [parseVal] at h
  | succ f =>
    rw [parseVal.eq_def] at h
    cases hdw : cs.dropWhile isJsonWs with
    | nil => simp only [hdw] at h; exact absurd h (by simp)
    | cons c r1 =>
      simp only [hdw] at h
      by_cases hq : c = quoteC
      · rw [if_pos hq] at h
        cases hp : parseStringBody r1 with
        | none => simp only [hp] at h; exact absurd h (by simp)
        | some pr => simp only [hp, Option.map_some] at h; simp at h
      · rw [if_neg hq] at h
        by_cases hl : c = lbraceC
        · rw [if_pos hl] at h
          subst hl
          refine ⟨⟨r1, rfl⟩, ?_⟩
          cases hdw2 : r1.dropWhile isJsonWs with
          | nil => simp only [hdw2] at h; exact absurd h (by simp)
          | cons d r2 =>
            simp only [hdw2] at h
            by_cases hd : d = rbraceC
            · rw [if_pos hd] at h
              simp only [List.drop_succ_cons, List.drop_zero, Option.some.injEq,
                Prod.mk.injEq] at h
              obtain ⟨-, rfl⟩ := h
              refine ⟨cs.takeWhile isJsonWs ++ lbraceC :: r1.takeWhile isJsonWs, ?_⟩
              rw [List.append_assoc, List.cons_append, ← hd,
                ← takeWhile_append_cons r1 r2 d isJsonWs hdw2,
                ← takeWhile_append_cons cs r1 lbraceC isJsonWs hdw]
            · rw [if_neg hd] at h
              cases hm : parseMembers f r1 with
              | none => simp only [hm] at h; exact absurd h (by simp)
              | some pr =>
                obtain ⟨kvs, r3⟩ := pr
                simp only [hm, Option.some.injEq, Prod.mk.injEq] at h
                obtain ⟨-, rfl⟩ := h
                obtain ⟨q, hq2⟩ := (parse_consumes f).2.1 r1 kvs r3 hm
                refine ⟨cs.takeWhile isJsonWs ++ lbraceC :: q, ?_⟩
                rw [List.append_assoc, List.cons_append, hq2,
                  ← takeWhile_append_cons cs r1 lbraceC isJsonWs hdw]
        · rw [if_neg hl] at h
          by_cases hbk : c = '['
          · rw [if_pos hbk] at h
            cases hdw2 : r1.dropWhile isJsonWs with
            | nil => simp only [hdw2] at h; exact absurd h (by simp)
            | cons d r2 =>
              simp only [hdw2] at h
              by_cases hd : d = ']'
              · rw [if_pos hd] at h; simp at h
              · rw [if_neg hd] at h
                cases he : parseElems f r1 with
                | none => simp only [he] at h; exact absurd h (by simp)
                | some pr => simp only [he] at h; simp at h
          · rw [if_neg hbk] at h
            by_cases ht : c = 't'
            · rw [if_pos ht] at h
              by_cases hpre : List.isPrefixOf ("rue".toList) r1 = true
              · rw [if_pos hpre] at h; simp at h
              · rw [if_neg hpre] at h; exact absurd h (by simp)
            · rw [if_neg ht] at h
              by_cases hf : c = 'f'
              · rw [if_pos hf] at h
                by_cases hpre : List.isPrefixOf ("alse".toList) r1 = true
                · rw [if_pos hpre] at h; simp at h
                · rw [if_neg hpre] at h; exact absurd h (by simp)
              · rw [if_neg hf] at h
                by_cases hn : c = 'n'
                · rw [if_pos hn] at h
                  by_cases hpre : List.isPrefixOf ("ull".toList) r1 = true
                  · rw [if_pos hpre] at h; simp at h
                  · rw [if_neg hpre] at h; exact absurd h (by simp)
                · rw [if_neg hn] at h
                  by_cases hN : c = 'N'
                  · rw [if_pos hN] at h
                    by_cases hpre : List.isPrefixOf ("aN".toList) r1 = true
                    · rw [if_pos hpre] at h; simp at h
                    · rw [if_neg hpre] at h; exact absurd h (by simp)
                  · rw [if_neg hN] at h
                    by_cases hI : c = 'I'
                    · rw [if_pos hI] at h
                      by_cases hpre : List.isPrefixOf ("nfinity".toList) r1 = true
                      · rw [if_pos hpre] at h; simp at h
                      · rw [if_neg hpre] at h; exact absurd h (by simp)
                    · rw [if_neg hI] at h
                      cases hnum : parseNumber (c :: r1) with
                      | none => simp only [hnum] at h; exact absurd h (by simp)
                      | some pr => simp only [hnum] at h; simp at h

theorem parseVal_obj_mem (f : Nat) (cs : List Char) (m : List (List Char × JVal))
    (rest : List Char) (h : parseVal f cs = some (JVal.JObj m, rest)) : lbraceC ∈ cs := by
  obtain ⟨⟨t, ht⟩, -⟩ := parseVal_obj_shape f cs m rest h
  exact (List.dropWhile_sublist isJsonWs).mem (ht ▸ List.mem_cons_self lbraceC t)

theorem jsonWs_imp_pyWs : ∀ c, isJsonWs c = true → isPyWs c = true := by
  intro c h
  simp only [isJsonWs, Bool.or_eq_true, decide_eq_true_eq] at h
  rcases h with ((h | h) | h) | h <;> simp [isPyWs, h]

theorem jsonLoads_obj_shape (l : List Char) (m : List (List Char × JVal))
    (h : jsonLoads l = some (JVal.JObj m)) :
    ∃ mid, pyStrip l = lbraceC :: mid ++ [rbraceC] := by
  unfold jsonLoads at h
  cases hp : parseVal (l.length + 1) l with
  | none => rw [hp] at h; simp at h
  | some pr =>
    obtain ⟨v, rest⟩ := pr
    simp only [hp] at h
    by_cases hrest : rest.dropWhile isJsonWs = []
    · rw [if_pos hrest] at h
      simp only [Option.some.injEq] at h
      subst h
      obtain ⟨⟨t, hhead⟩, q, hend⟩ := parseVal_obj_shape _ l m rest hp
      have hDpy : l.dropWhile isPyWs = lbraceC :: t :=
        dropWhile_mono_sub isJsonWs isPyWs l lbraceC t jsonWs_imp_pyWs hhead (by decide)
      have hrestws : ∀ c ∈ rest, isPyWs c = true :=
        fun c hc => jsonWs_imp_pyWs c (all_of_dropWhile_nil isJsonWs rest hrest c hc)
      have hwws : ∀ c ∈ l.takeWhile isPyWs, isPyWs c = true :=
        fun c hc => List.mem_takeWhile_imp hc
      have hdec : l.takeWhile isPyWs ++ (lbraceC :: t) = q ++ rbraceC :: rest := by
        rw [← hDpy, List.takeWhile_append_dropWhile, hend]
      rcases List.append_eq_append_iff.mp hdec with ⟨a, hqa, hDa⟩ | ⟨c, hwc, hrc⟩
      · -- the brace-to-brace core sits inside the whitespace-stripped part
        cases a with
        | nil =>
          simp only [List.nil_append] at hDa
          have hx : lbraceC = rbraceC := by
            have h2 := congrArg List.head? hDa
            simpa using h2
          exact absurd hx (by decide)
        | cons x q3 =>
          have hx : x = lbraceC := by
            have := congrArg List.head? hDa
            simp only [List.head?_cons, List.cons_append, Option.some.injEq] at this
            exact this.symm
          subst hx
          have hta : t = q3 ++ rbraceC :: rest := by
            have := congrArg List.tail hDa
            simpa using this
          refine ⟨q3, ?_⟩
          show ((l.dropWhile isPyWs).reverse.dropWhile isPyWs).reverse =
            lbraceC :: q3 ++ [rbraceC]
          rw [hDpy, hta]
          have hrev : (lbraceC :: (q3 ++ rbraceC :: rest)).reverse =
              rest.reverse ++ rbraceC :: (q3.reverse ++ [lbraceC]) := by
            simp [List.reverse_cons, List.reverse_append, List.append_assoc]
          rw [hrev, dropWhile_append_all isPyWs rest.reverse _
            (fun c hc => hrestws c (List.mem_reverse.mp hc))]
          rw [List.dropWhile_cons, if_neg (by simp; decide)]
          simp [List.reverse_cons, List.reverse_append]
      · -- impossible: the closing brace would lie in leading whitespace
        cases c with
        | nil =>
          simp only [List.nil_append] at hrc
          have hx : rbraceC = lbraceC := by
            have h2 := congrArg List.head? hrc
            simpa using h2
          exact absurd hx (by decide)
        | cons x c2 =>
          have hx : x = rbraceC := by
            have := congrArg List.head? hrc
            simpa using this.symm
          have hmem : x ∈ l.takeWhile isPyWs := by
            rw [hwc]
            exact List.mem_append.mpr (Or.inr (List.mem_cons_self x c2))
          have := hwws x hmem
          rw [hx] at this
          exact absurd this (by decide)
    · rw [if_neg hrest] at h; exact absurd h (by simp)

/-! ### Fence analysis for the normalizer -/

theorem isPrefixOf_append_self (l t : List Char) : List.isPrefixOf l (l ++ t) = true := by
  induction l with
  | nil => simp [List.isPrefixOf]
  | cons a as ih =>
    show (a == a && List.isPrefixOf as (as ++ t)) = true
    rw [beq_self_eq_true, Bool.true_and]
    exact ih

theorem fence_not_prefix (x : List Char) (c : Char) (hc : ¬c = backtickC) :
    List.isPrefixOf ("```".toList) (c :: x) = false := by
  have h3 : "```".toList = [backtickC, backtickC, backtickC] := by decide
  rw [h3]
  show (backtickC == c && List.isPrefixOf [backtickC, backtickC] x) = false
  rw [beq_eq_false_iff_ne.mpr (fun h => hc h.symm), Bool.false_and]

theorem dropWhile_no_front (p : Char → Bool) (A : List Char) (b2 : Char) (l : List Char)
    (hA : ∀ c ∈ A, p c = false) (hb : p b2 = false) :
    (A ++ b2 :: l).dropWhile p = A ++ b2 :: l := by
  cases A with
  | nil => simp [List.dropWhile_cons, hb]
  | cons a t =>
    rw [List.cons_append, List.dropWhile_cons,
      if_neg (by simp [hA a (List.mem_cons_self a t)])]

/-- If the payload already strips to a brace-delimited core, the fence branch
of the cleaner is not taken. -/
theorem cleanPayload_obj (J mid : List Char)
    (hM : pyStrip J = lbraceC :: mid ++ [rbraceC]) :
    cleanPayload J = pyStrip J := by
  simp only [cleanPayload]
  rw [hM, List.cons_append, fence_not_prefix (mid ++ [rbraceC]) lbraceC (by decide)]
  simp

theorem stripEnds_no_ends (p : Char → Bool) (a z : Char) (mid2 : List Char)
    (ha : p a = false) (hz : p z = false) :
    stripEnds p (a :: mid2 ++ [z]) = a :: mid2 ++ [z] := by
  unfold stripEnds
  have h1 : ((a :: mid2) ++ [z]).dropWhile p = (a :: mid2) ++ [z] := by
    rw [List.cons_append, List.dropWhile_cons, if_neg (by simp [ha])]
  rw [h1]
  have h2 : ((a :: mid2) ++ [z]).reverse = z :: (mid2.reverse ++ [a]) := by
    simp
  rw [h2, List.dropWhile_cons, if_neg (by simp [hz]), ← h2, List.reverse_reverse]

theorem pyStrip_wrapFence (label J : List Char) :
    pyStrip (wrapFence label J) = wrapFence label J := by
  have h3 : "```".toList = [backtickC, backtickC, backtickC] := by decide
  have hwf : wrapFence label J =
      backtickC :: (backtickC :: backtickC :: (label ++ '\n' ::
        (J ++ ['\n', backtickC, backtickC]))) ++ [backtickC] := by
    simp only [wrapFence]
    rw [h3]
    simp [List.append_assoc]
  rw [hwf]
  exact stripEnds_no_ends isPyWs backtickC backtickC _ (by decide) (by decide)

theorem fence_cond_wrapFence (label J : List Char) :
    List.isPrefixOf ("```".toList) (wrapFence label J) = true := by
  simp only [wrapFence]
  exact isPrefixOf_append_self _ _

theorem pyStripBt_wrapFence (label J : List Char) (hlab2 : backtickC ∉ label) :
    pyStripBt (wrapFence label J) = label ++ '\n' :: (J ++ ['\n']) := by
  have h3 : "```".toList = [backtickC, backtickC, backtickC] := by decide
  have hlabf : ∀ c ∈ label, (decide (c = backtickC)) = false := by
    intro c hc
    simp only [decide_eq_false_iff_not]
    exact fun h => hlab2 (h ▸ hc)
  show stripEnds (fun c => c = backtickC) (wrapFence label J) = _
  unfold stripEnds wrapFence
  rw [h3, List.append_assoc]
  rw [dropWhile_append_all _ [backtickC, backtickC, backtickC] _
    (by intro c hc; simp only [List.mem_cons, List.not_mem_nil, or_false] at hc
        rcases hc with rfl | rfl | rfl <;> simp)]
  rw [dropWhile_no_front _ label '\n' _ hlabf (by decide)]
  have hrev : (label ++ '\n' :: (J ++ ['\n', backtickC, backtickC, backtickC])).reverse =
      backtickC :: backtickC :: backtickC :: '\n' :: (J.reverse ++ '\n' :: label.reverse) := by
    simp
  rw [hrev]
  rw [List.dropWhile_cons, if_pos (by decide), List.dropWhile_cons, if_pos (by decide),
    List.dropWhile_cons, if_pos (by decide), List.dropWhile_cons, if_neg (by decide)]
  simp

theorem cleanPayload_fence (label J mid : List Char)
    (hlab1 : lbraceC ∉ label) (hlab2 : backtickC ∉ label)
    (hM : pyStrip J = lbraceC :: mid ++ [rbraceC]) :
    cleanPayload (wrapFence label J) = pyStrip J := by
  obtain ⟨w1, w2, hJd, hw1, hw2⟩ := stripEnds_decomp isPyWs J
  have hJd2 : J = w1 ++ ((lbraceC :: mid ++ [rbraceC]) ++ w2) := by
    conv_lhs => rw [hJd]
    rw [show stripEnds isPyWs J = pyStrip J from rfl, hM, List.append_assoc]
  simp only [cleanPayload]
  rw [pyStrip_wrapFence label J, fence_cond_wrapFence label J]
  rw [if_pos rfl]
  rw [show pyStripBt (wrapFence label J) = pyStripBt (wrapFence label J) from rfl,
    pyStripBt_wrapFence label J hlab2]
  have hP1 : ∀ x ∈ label ++ '\n' :: w1, x ≠ lbraceC := by
    intro x hx
    rcases List.mem_append.mp hx with hx | hx
    · exact fun h => hlab1 (h ▸ hx)
    · rcases List.mem_cons.mp hx with rfl | hx
      · decide
      · intro h
        have := hw1 x hx
        rw [h] at this
        exact absurd this (by decide)
  have hS1 : ∀ x ∈ w2 ++ ['\n'], x ≠ rbraceC := by
    intro x hx
    rcases List.mem_append.mp hx with hx | hx
    · intro h
      have := hw2 x hx
      rw [h] at this
      exact absurd this (by decide)
    · rcases List.mem_cons.mp hx with rfl | hx
      · decide
      · simp at hx
  have hcleanf : label ++ '\n' :: (J ++ ['\n']) =
      (label ++ '\n' :: w1) ++ lbraceC :: (mid ++ rbraceC :: (w2 ++ ['\n'])) := by
    conv_lhs => rw [hJd2]
    simp
  have hcleang : label ++ '\n' :: (J ++ ['\n']) =
      ((label ++ '\n' :: w1) ++ lbraceC :: mid) ++ rbraceC :: (w2 ++ ['\n']) := by
    conv_lhs => rw [hJd2]
    simp
  have hfind : pyFind (label ++ '\n' :: (J ++ ['\n'])) lbraceC =
      ((label ++ '\n' :: w1).length : Int) := by
    rw [hcleanf]
    exact pyFind_first lbraceC _ _ hP1
  have hrfind : pyRfind (label ++ '\n' :: (J ++ ['\n'])) rbraceC =
      (((label ++ '\n' :: w1) ++ lbraceC :: mid).length : Int) := by
    rw [hcleang]
    exact pyRfind_last rbraceC _ _ hS1
  rw [hfind, hrfind]
  rw [if_pos (by constructor <;> omega)]
  have htn1 : (((label ++ '\n' :: w1).length : Int)).toNat = (label ++ '\n' :: w1).length := by
    omega
  have htn2 : ((((label ++ '\n' :: w1) ++ lbraceC :: mid).length : Int)).toNat =
      ((label ++ '\n' :: w1) ++ lbraceC :: mid).length := by
    omega
  rw [htn1, htn2]
  have harith : ((label ++ '\n' :: w1) ++ lbraceC :: mid).length + 1 =
      (label ++ '\n' :: w1).length + (lbraceC :: mid ++ [rbraceC]).length := by
    simp only [List.length_append, List.length_cons, List.length_nil]
    omega
  rw [harith]
  have hform : label ++ '\n' :: (J ++ ['\n']) =
      (label ++ '\n' :: w1) ++ (lbraceC :: mid ++ [rbraceC]) ++ (w2 ++ ['\n']) := by
    conv_lhs => rw [hJd2]
    simp
  rw [hform, pySlice_mid (label ++ '\n' :: w1) (lbraceC :: mid ++ [rbraceC]) (w2 ++ ['\n']),
    ← hM]

/-- The quiz handler, expressed through the observable pipeline pieces. -/
theorem generate_quiz_eq (fresh : String) (p : QuizIn) (raw : List Char) :
    generate_quiz fresh (some raw) p =
      match safe_json_loads raw with
      | none => Except.error ⟨502, "Respuesta de Gemini no es JSON válido: " ++
          jsonErrMsg (cleanPayload (pyStrip raw))⟩
      | some data =>
        match toQuizPayload data with
        | none => Except.error ⟨422, "Estructura de quiz inválida: " ++ validationErrMsg data⟩
        | some quiz => Except.ok ⟨fresh, quiz.preguntas⟩ := by
  show (match safe_json_loads (pyStrip raw) with
    | none => (Except.error ⟨502, "Respuesta de Gemini no es JSON válido: " ++
        jsonErrMsg (cleanPayload (pyStrip raw))⟩ : Except HTTPError QuizOut)
    | some data =>
      match toQuizPayload data with
      | none => Except.error ⟨422, "Estructura de quiz inválida: " ++ validationErrMsg data⟩
      | some quiz => Except.ok ⟨fresh, quiz.preguntas⟩) = _
  rw [safe_json_loads_strip raw]

/-- Two upstream texts that clean to the same payload produce identical quiz
responses. -/
theorem generate_quiz_congr (fresh : String) (p : QuizIn) (x y : List Char)
    (hc : cleanPayload (pyStrip x) = cleanPayload (pyStrip y)) :
    generate_quiz fresh (some x) p = generate_quiz fresh (some y) p := by
  show (match safe_json_loads (pyStrip x) with
    | none => (Except.error ⟨502, "Respuesta de Gemini no es JSON válido: " ++
        jsonErrMsg (cleanPayload (pyStrip x))⟩ : Except HTTPError QuizOut)
    | some data =>
      match toQuizPayload data with
      | none => Except.error ⟨422, "Estructura de quiz inválida: " ++ validationErrMsg data⟩
      | some quiz => Except.ok ⟨fresh, quiz.preguntas⟩) =
    (match safe_json_loads (pyStrip y) with
    | none => (Except.error ⟨502, "Respuesta de Gemini no es JSON válido: " ++
        jsonErrMsg (cleanPayload (pyStrip y))⟩ : Except HTTPError QuizOut)
    | some data =>
      match toQuizPayload data with
      | none => Except.error ⟨422, "Estructura de quiz inválida: " ++ validationErrMsg data⟩
      | some quiz => Except.ok ⟨fresh, quiz.preguntas⟩)
  unfold safe_json_loads
  rw [hc]

/-! ### Support for the no-brace claim -/

theorem stripEnds_sublist (p : Char → Bool) (l : List Char) :
    List.Sublist (stripEnds p l) l := by
  unfold stripEnds
  have h1 : List.Sublist ((l.dropWhile p).reverse.dropWhile p) (l.dropWhile p).reverse :=
    List.dropWhile_sublist p
  have h2 : List.Sublist (((l.dropWhile p).reverse.dropWhile p).reverse) (l.dropWhile p) := by
    have := h1.reverse
    rwa [List.reverse_reverse] at this
  exact h2.trans (List.dropWhile_sublist p)

theorem pySlice_sublist (l : List Char) (a b : Nat) : List.Sublist (pySlice l a b) l := by
  unfold pySlice
  exact (List.drop_sublist a (l.take b)).trans (List.take_sublist b l)

theorem cleanPayload_sublist (payload : List Char) :
    List.Sublist (cleanPayload payload) payload := by
  unfold cleanPayload
  have hst : List.Sublist (pyStrip payload) payload := stripEnds_sublist isPyWs payload
  by_cases hf : List.isPrefixOf ("```".toList) (pyStrip payload) = true
  · rw [if_pos hf]
    have hbt : List.Sublist (pyStripBt (pyStrip payload)) payload :=
      (stripEnds_sublist _ (pyStrip payload)).trans hst
    by_cases hbr : pyFind (pyStripBt (pyStrip payload)) lbraceC ≠ -1 ∧
        pyRfind (pyStripBt (pyStrip payload)) rbraceC ≠ -1
    · rw [if_pos hbr]
      exact (pySlice_sublist _ _ _).trans hbt
    · rw [if_neg hbr]
      exact hbt
  · rw [if_neg hf]
    exact hst

theorem safe_json_loads_obj_mem (payload : List Char) (m : List (List Char × JVal))
    (h : safe_json_loads payload = some (JVal.JObj m)) : lbraceC ∈ payload := by
  unfold safe_json_loads jsonLoads at h
  cases hp : parseVal ((cleanPayload payload).length + 1) (cleanPayload payload) with
  | none => rw [hp] at h; simp at h
  | some pr =>
    obtain ⟨v, rest⟩ := pr
    simp only [hp] at h
    by_cases hrest : rest.dropWhile isJsonWs = []
    · rw [if_pos hrest] at h
      simp only [Option.some.injEq] at h
      subst h
      exact (cleanPayload_sublist payload).mem (parseVal_obj_mem _ _ m rest hp)
    · rw [if_neg hrest] at h; exact absurd h (by simp)

theorem toQuizPayload_some_obj (v : JVal) (qp : QuizPayload)
    (h : toQuizPayload v = some qp) : ∃ kvs, v = JVal.JObj kvs := by
  cases v with
  | JObj kvs => exact ⟨kvs, rfl⟩
  | JNull => simp [toQuizPayload] at h
  | JBool b => simp [toQuizPayload] at h
  | JNum l => simp [toQuizPayload] at h
  | JStr s => simp [toQuizPayload] at h
  | JArr xs => simp [toQuizPayload] at h

/-! ### Support for the item-count claim -/

theorem itemsOf_length (xs : List JVal) : ∀ items, itemsOf xs = some items →
    items.length = xs.length := by
  induction xs with
  | nil => intro items h; simp [itemsOf] at h; simp [← h]
  | cons x t ih =>
    intro items h
    unfold itemsOf at h
    cases hx : toQuizItem x with
    | none => rw [hx] at h; simp at h
    | some i =>
      rw [hx] at h
      cases ht : itemsOf t with
      | none => rw [ht] at h; simp at h
      | some r =>
        rw [ht] at h
        simp at h
        subst h
        simp [ih r ht]

theorem asStrList_map (opts : List (List Char)) :
    asStrList (opts.map JVal.JStr) = some opts := by
  induction opts with
  | nil => rfl
  | cons o t ih => simp [asStrList, ih]

/-! ### Split / join lemmas -/

theorem pySplitF_any (n : Nat) : ∀ l : List Char, l.length ≤ n →
    ∀ f, l.length < f → pySplitF f l = pySplitF (l.length + 1) l := by
  induction n with
  | zero =>
    intro l hlen f hf
    have : l = [] := List.eq_nil_of_length_eq_zero (Nat.le_zero.mp hlen)
    subst this
    cases f with
    | zero => simp at hf
    | succ f => rfl
  | succ n ih =>
    intro l hlen f hf
    cases l with
    | nil =>
      cases f with
      | zero => simp at hf
      | succ f => rfl
    | cons c cs =>
      cases f with
      | zero => simp at hf
      | succ f =>
        have hcs : cs.length ≤ n := by simp at hlen; omega
        have hcf : cs.length < f := by simp at hf; omega
        have hshow : (pySplitF (f + 1) (c :: cs) = pySplitF ((c :: cs).length + 1) (c :: cs)) =
            ((if isPyWs c = true then pySplitF f cs
              else (c :: cs.takeWhile (fun d => !isPyWs d)) ::
                pySplitF f (cs.dropWhile (fun d => !isPyWs d))) =
            (if isPyWs c = true then pySplitF (cs.length + 1) cs
              else (c :: cs.takeWhile (fun d => !isPyWs d)) ::
                pySplitF (cs.length + 1) (cs.dropWhile (fun d => !isPyWs d)))) := rfl
        rw [hshow]
        by_cases hc : isPyWs c = true
        · rw [if_pos hc, if_pos hc]
          exact ih cs hcs f hcf
        · rw [if_neg hc, if_neg hc]
          have hd := (List.dropWhile_sublist (l := cs) (fun d => !isPyWs d)).length_le
          rw [ih (cs.dropWhile (fun d => !isPyWs d)) (by omega) f (by omega),
            ih (cs.dropWhile (fun d => !isPyWs d)) (by omega) (cs.length + 1) (by omega)]

theorem pySplitWs_nil : pySplitWs [] = [] := rfl

theorem pySplitWs_cons_ws (c : Char) (cs : List Char) (h : isPyWs c = true) :
    pySplitWs (c :: cs) = pySplitWs cs := by
  show (if isPyWs c = true then pySplitF (cs.length + 1) cs
    else (c :: cs.takeWhile (fun d => !isPyWs d)) ::
      pySplitF (cs.length + 1) (cs.dropWhile (fun d => !isPyWs d))) = pySplitWs cs
  rw [if_pos h]
  rfl

theorem pySplitWs_cons_nws (c : Char) (cs : List Char) (h : isPyWs c = false) :
    pySplitWs (c :: cs) =
      (c :: cs.takeWhile (fun d => !isPyWs d)) ::
        pySplitWs (cs.dropWhile (fun d => !isPyWs d)) := by
  show (if isPyWs c = true then pySplitF (cs.length + 1) cs
    else (c :: cs.takeWhile (fun d => !isPyWs d)) ::
      pySplitF (cs.length + 1) (cs.dropWhile (fun d => !isPyWs d))) = _
  rw [if_neg (by simp [h])]
  have hd := (List.dropWhile_sublist (l := cs) (fun d => !isPyWs d)).length_le
  rw [pySplitF_any cs.length (cs.dropWhile (fun d => !isPyWs d)) (by omega)
    (cs.length + 1) (by omega)]
  rfl

theorem pySplit_tokens (n : Nat) : ∀ l : List Char, l.length ≤ n →
    ∀ w ∈ pySplitWs l, w ≠ [] ∧ ∀ c ∈ w, isPyWs c = false := by
  induction n with
  | zero =>
    intro l hlen w hw
    have : l = [] := List.eq_nil_of_length_eq_zero (Nat.le_zero.mp hlen)
    subst this
    rw [pySplitWs_nil] at hw
    simp at hw
  | succ n ih =>
    intro l hlen w hw
    cases l with
    | nil => rw [pySplitWs_nil] at hw; simp at hw
    | cons c cs =>
      by_cases hc : isPyWs c = true
      · rw [pySplitWs_cons_ws c cs hc] at hw
        exact ih cs (by simp at hlen; omega) w hw
      · rw [pySplitWs_cons_nws c cs (by simpa using hc)] at hw
        rcases List.mem_cons.mp hw with rfl | hw
        · refine ⟨by simp, ?_⟩
          intro a ha
          rcases List.mem_cons.mp ha with rfl | ha
          · simpa using hc
          · have := List.mem_takeWhile_imp ha
            simpa using this
        · refine ih (cs.dropWhile (fun d => !isPyWs d)) ?_ w hw
          have := (List.dropWhile_sublist (l := cs) (fun d => !isPyWs d)).length_le
          simp at hlen
          omega

theorem pySplit_spec (n : Nat) : ∀ l : List Char, l.length ≤ n →
    pySplitWs l = (l.splitOnP isPyWs).filter (fun w => w ≠ []) := by
  induction n with
  | zero =>
    intro l hlen
    have : l = [] := List.eq_nil_of_length_eq_zero (Nat.le_zero.mp hlen)
    subst this
    simp [pySplitWs_nil]
  | succ n ih =>
    intro l hlen
    cases l with
    | nil => simp [pySplitWs_nil]
    | cons c cs =>
      by_cases hc : isPyWs c = true
      · rw [pySplitWs_cons_ws c cs hc, List.splitOnP_cons, if_pos hc, List.filter_cons]
        have := ih cs (by simp at hlen; omega)
        simpa using this
      · have hcf : isPyWs c = false := by simpa using hc
        rw [pySplitWs_cons_nws c cs hcf]
        cases hrest : cs.dropWhile (fun d => !isPyWs d) with
        | nil =>
          have hall : ∀ x ∈ c :: cs, ¬isPyWs x = true := by
            intro x hx
            rcases List.mem_cons.mp hx with rfl | hx
            · simp [hcf]
            · have hx2 : x ∈ cs.takeWhile (fun d => !isPyWs d) := by
                rw [← List.takeWhile_append_dropWhile (fun d => !isPyWs d) cs, hrest] at hx
                simpa using hx
              have := List.mem_takeWhile_imp hx2
              simpa using this
          rw [List.splitOnP_eq_single isPyWs (c :: cs) hall]
          have htk : cs.takeWhile (fun d => !isPyWs d) = cs := by
            conv_rhs => rw [← List.takeWhile_append_dropWhile (fun d => !isPyWs d) cs, hrest]
            simp
          rw [htk, pySplitWs_nil]
          simp
        | cons s r =>
          have hs : isPyWs s = true := by
            have := head?_dropWhile_not (fun d => !isPyWs d) cs s (by rw [hrest]; rfl)
            simpa using this
          have hdecomp : c :: cs =
              (c :: cs.takeWhile (fun d => !isPyWs d)) ++ s :: r := by
            conv_lhs => rw [show cs = cs.takeWhile (fun d => !isPyWs d) ++
              cs.dropWhile (fun d => !isPyWs d) from
                (List.takeWhile_append_dropWhile (fun d => !isPyWs d) cs).symm, hrest]
            simp
          have hxs : ∀ x ∈ c :: cs.takeWhile (fun d => !isPyWs d), ¬isPyWs x = true := by
            intro x hx
            rcases List.mem_cons.mp hx with rfl | hx
            · simp [hcf]
            · have := List.mem_takeWhile_imp hx
              simpa using this
          have hlen2 : r.length ≤ n := by
            have h1 : (c :: cs).length = (c :: cs.takeWhile (fun d => !isPyWs d)).length +
                (s :: r).length := by rw [hdecomp, List.length_append]
            simp only [List.length_cons] at h1 hlen ⊢
            omega
          rw [hdecomp, List.splitOnP_first isPyWs _ hxs s hs r, List.filter_cons]
          rw [pySplitWs_cons_ws s r hs, ih r hlen2]
          simp

theorem nds_tail (a : Char) (t : List Char) (h : noDoubleSpace (a :: t) = true) :
    noDoubleSpace t = true := by
  cases t with
  | nil => rfl
  | cons b r =>
    have h2 : (!(a = ' ' && b = ' ') && noDoubleSpace (b :: r)) = true := h
    cases hnd : noDoubleSpace (b :: r)
    · rw [hnd, Bool.and_false] at h2
      exact absurd h2 (by simp)
    · rfl

theorem nds_suffix (A B : List Char) (h : noDoubleSpace (A ++ B) = true) :
    noDoubleSpace B = true := by
  induction A with
  | nil => simpa using h
  | cons a t ih => exact ih (nds_tail a (t ++ B) (by simpa using h))

theorem nds_mid (A : List Char) (d : Char) (B : List Char)
    (h : noDoubleSpace (A ++ ' ' :: d :: B) = true) : ¬d = ' ' := by
  have h2 := nds_suffix A _ h
  have h3 : (!(' ' = ' ' && d = ' ') && noDoubleSpace (d :: B)) = true := h2
  intro hds
  subst hds
  simp at h3

theorem joinSpace_cons2 (w x : List Char) (ys : List (List Char)) :
    joinSpace (w :: x :: ys) = w ++ ' ' :: joinSpace (x :: ys) := rfl

theorem join_split (n : Nat) : ∀ l : List Char, l.length ≤ n →
    (∀ c ∈ l, isPyWs c = true → c = ' ') → noDoubleSpace l = true →
    l.head? ≠ some ' ' → l.getLast? ≠ some ' ' →
    joinSpace (pySplitWs l) = l := by
  induction n with
  | zero =>
    intro l hlen _ _ _ _
    have : l = [] := List.eq_nil_of_length_eq_zero (Nat.le_zero.mp hlen)
    subst this
    rw [pySplitWs_nil]
    rfl
  | succ n ih =>
    intro l hlen hws hnds hhead hlast
    cases l with
    | nil => rw [pySplitWs_nil]; rfl
    | cons c t =>
      have hcs : ¬c = ' ' := fun h => hhead (by rw [h]; rfl)
      have hcw : isPyWs c = false := by
        cases hpc : isPyWs c
        · rfl
        · exact absurd (hws c (List.mem_cons_self c t) hpc) hcs
      rw [pySplitWs_cons_nws c t hcw]
      cases hrest : t.dropWhile (fun d => !isPyWs d) with
      | nil =>
        have htk : t.takeWhile (fun d => !isPyWs d) = t := by
          conv_rhs => rw [← List.takeWhile_append_dropWhile (fun d => !isPyWs d) t, hrest]
          rw [List.append_nil]
        rw [pySplitWs_nil]
        show c :: t.takeWhile (fun d => !isPyWs d) = c :: t
        rw [htk]
      | cons s r =>
        have hsw : isPyWs s = true := by
          have := head?_dropWhile_not (fun d => !isPyWs d) t s (by rw [hrest]; rfl)
          simpa using this
        have hdecomp : c :: t = (c :: t.takeWhile (fun d => !isPyWs d)) ++ s :: r := by
          conv_lhs => rw [show t = t.takeWhile (fun d => !isPyWs d) ++
            t.dropWhile (fun d => !isPyWs d) from
              (List.takeWhile_append_dropWhile (fun d => !isPyWs d) t).symm, hrest]
          simp
        have hsmem : s ∈ c :: t := by
          rw [hdecomp]
          exact List.mem_append.mpr (Or.inr (List.mem_cons_self s r))
        have hs2 : s = ' ' := hws s hsmem hsw
        subst hs2
        cases r with
        | nil =>
          exfalso
          apply hlast
          rw [hdecomp, getLast?_append_right _ _ (by simp)]
          rfl
        | cons d r2 =>
          have hd : ¬d = ' ' := by
            refine nds_mid (c :: t.takeWhile (fun d => !isPyWs d)) d r2 ?_
            rw [← hdecomp]
            exact hnds
          have hdw : isPyWs d = false := by
            cases hpd : isPyWs d
            · rfl
            · exact absurd (hws d (by
                rw [hdecomp]
                exact List.mem_append.mpr (Or.inr (List.mem_cons_of_mem _
                  (List.mem_cons_self d r2)))) hpd) hd
          rw [pySplitWs_cons_ws ' ' (d :: r2) (by decide)]
          rw [pySplitWs_cons_nws d r2 hdw, joinSpace_cons2, ← pySplitWs_cons_nws d r2 hdw]
          have hlen2 : (d :: r2).length ≤ n := by
            have h1 : (c :: t).length =
                (c :: t.takeWhile (fun d => !isPyWs d)).length + (' ' :: d :: r2).length := by
              rw [hdecomp, List.length_append]
            simp only [List.length_cons] at h1 hlen ⊢
            omega
          have hIH : joinSpace (pySplitWs (d :: r2)) = d :: r2 := by
            refine ih (d :: r2) hlen2 ?_ ?_ ?_ ?_
            · intro x hx
              refine hws x ?_
              rw [hdecomp]
              exact List.mem_append.mpr (Or.inr (List.mem_cons_of_mem _ hx))
            · refine nds_suffix ((c :: t.takeWhile (fun d => !isPyWs d)) ++ [' ']) (d :: r2) ?_
              rw [List.append_assoc]
              simp only [List.singleton_append]
              rw [← hdecomp]
              exact hnds
            · simp only [List.head?_cons, ne_eq, Option.some.injEq]
              exact hd
            · have hgl : (c :: t).getLast? = (d :: r2).getLast? := by
                rw [hdecomp, show (c :: t.takeWhile (fun d => !isPyWs d)) ++ ' ' :: d :: r2 =
                  ((c :: t.takeWhile (fun d => !isPyWs d)) ++ [' ']) ++ d :: r2 by
                    rw [List.append_assoc]; simp]
                exact getLast?_append_right _ _ (by simp)
              rw [← hgl]
              exact hlast
          rw [hIH, ← hdecomp]

/-! ### Claim theorems -/

/-- Claim C1: for every quiz request with in-bounds question_count,
`generate_quiz` maps each failure to exactly one distinct terminal error: no
upstream content gives the 502 gateway error; upstream text that does not
parse as JSON after fence-stripping gives a 502 whose message carries the
parse failure reason; JSON that parses but fails the quiz schema gives the
422 unprocessable-entity error; otherwise the handler succeeds with a
`QuizOut` carrying the freshly minted session id. -/
theorem spec_c1 (fresh : String) (src : List Char) (n : Int) (resp : Option (List Char))
    (hn : 3 ≤ n ∧ n ≤ 12) :
    (resp = none →
      generate_quiz fresh resp ⟨src, n⟩ =
        Except.error ⟨502, "Gemini no devolvió contenido"⟩) ∧
    (∀ raw, resp = some raw → safe_json_loads raw = none →
      generate_quiz fresh resp ⟨src, n⟩ = Except.error ⟨502,
        "Respuesta de Gemini no es JSON válido: " ++ jsonErrMsg (cleanPayload (pyStrip raw))⟩) ∧
    (∀ raw v, resp = some raw → safe_json_loads raw = some v → toQuizPayload v = none →
      generate_quiz fresh resp ⟨src, n⟩ = Except.error ⟨422,
        "Estructura de quiz inválida: " ++ validationErrMsg v⟩) ∧
    (∀ raw v qp, resp = some raw → safe_json_loads raw = some v → toQuizPayload v = some qp →
      generate_quiz fresh resp ⟨src, n⟩ = Except.ok ⟨fresh, qp.preguntas⟩) := by
  refine ⟨?_, ?_, ?_, ?_⟩
  · intro h; subst h; rfl
  · intro raw h hs
    subst h
    rw [generate_quiz_eq]
    simp only [hs]
  · intro raw v h hs hv
    subst h
    rw [generate_quiz_eq]
    simp only [hs, hv]
  · intro raw v qp h hs hv
    subst h
    rw [generate_quiz_eq]
    simp only [hs, hv]

/-- Witness for C1 at a concrete input: an empty upstream response is mapped
to the 502 no-content error. -/
theorem spec_c1_witness :
    generate_quiz "s" none ⟨"texto".toList, 5⟩ =
      Except.error ⟨502, "Gemini no devolvió contenido"⟩ :=
  (spec_c1 "s" ("texto".toList) 5 none ⟨by decide, by decide⟩).1 rfl

/-- Claim C2: wrapping a valid JSON object text in a triple-backtick fenced
block (with a ```json-style marker line) does not change the parsed result of
the Response Normalizer, and hence not the QuizResult either. -/
theorem spec_c2 (label J : List Char) (kvs : List (List Char × JVal))
    (hJ : jsonLoads J = some (JVal.JObj kvs))
    (h1 : lbraceC ∉ label) (h2 : backtickC ∉ label) :
    safe_json_loads (wrapFence label J) = safe_json_loads J ∧
    ∀ (fresh : String) (src : List Char) (n : Int),
      generate_quiz fresh (some (wrapFence label J)) ⟨src, n⟩ =
        generate_quiz fresh (some J) ⟨src, n⟩ := by
  obtain ⟨mid, hM⟩ := jsonLoads_obj_shape J kvs hJ
  have hcw : cleanPayload (wrapFence label J) = pyStrip J :=
    cleanPayload_fence label J mid h1 h2 hM
  have hcj : cleanPayload J = pyStrip J := cleanPayload_obj J mid hM
  constructor
  · unfold safe_json_loads
    rw [hcw, hcj]
  · intro fresh src n
    refine generate_quiz_congr fresh ⟨src, n⟩ _ _ ?_
    rw [cleanPayload_strip, cleanPayload_strip, hcw, hcj]

/-- Witness for C2 at a concrete fenced payload. -/
theorem spec_c2_witness :
    safe_json_loads (wrapFence ("json".toList) ("\x7b\"a\": 1\x7d".toList)) =
      safe_json_loads ("\x7b\"a\": 1\x7d".toList) ∧
    generate_quiz "s" (some (wrapFence ("json".toList) ("\x7b\"a\": 1\x7d".toList)))
        ⟨"t".toList, 5⟩ =
      generate_quiz "s" (some ("\x7b\"a\": 1\x7d".toList)) ⟨"t".toList, 5⟩ :=
  ⟨(spec_c2 ("json".toList) ("\x7b\"a\": 1\x7d".toList)
      [("a".toList, JVal.JNum ("1".toList))] rfl (by decide) (by decide)).1,
   (spec_c2 ("json".toList) ("\x7b\"a\": 1\x7d".toList)
      [("a".toList, JVal.JNum ("1".toList))] rfl (by decide) (by decide)).2
        "s" ("t".toList) 5⟩

/-- Counterexample to C3 as stated: the upstream text `42` contains no
opening brace, yet it parses as a JSON number, so the pipeline fails with the
422 structural error — not the 502 parse error the claim requires. -/
theorem spec_c3_cex :
    lbraceC ∉ ("42".toList) ∧
    generate_quiz "s" (some ("42".toList)) ⟨"t".toList, 5⟩ =
      Except.error ⟨422, "Estructura de quiz inválida: " ++
        validationErrMsg (JVal.JNum ("42".toList))⟩ := by
  exact ⟨by decide, by decide⟩

/-- Amended C3: for input with no opening brace the normalizer never yields a
successful QuizResult; it yields the 502 parse error when the text does not
parse as JSON, and the 422 structural error when it parses (necessarily to a
non-object). -/
theorem spec_c3 (txt : List Char) (h : lbraceC ∉ txt) (fresh : String) (src : List Char)
    (n : Int) :
    (safe_json_loads txt = none → isParse502 (generate_quiz fresh (some txt) ⟨src, n⟩)) ∧
    (∀ v, safe_json_loads txt = some v →
      isStruct422 (generate_quiz fresh (some txt) ⟨src, n⟩)) ∧
    ∀ out, generate_quiz fresh (some txt) ⟨src, n⟩ ≠ Except.ok out := by
  have key : ∀ v, safe_json_loads txt = some v → toQuizPayload v = none := by
    intro v hv
    cases htp : toQuizPayload v with
    | none => rfl
    | some qp =>
      obtain ⟨kvs, rfl⟩ := toQuizPayload_some_obj v qp htp
      exact absurd (safe_json_loads_obj_mem txt kvs hv) h
  refine ⟨?_, ?_, ?_⟩
  · intro hs
    exact ⟨jsonErrMsg (cleanPayload (pyStrip txt)), by rw [generate_quiz_eq]; simp only [hs]⟩
  · intro v hv
    exact ⟨validationErrMsg v, by rw [generate_quiz_eq]; simp only [hv, key v hv]⟩
  · intro out hout
    rw [generate_quiz_eq] at hout
    cases hs : safe_json_loads txt with
    | none =>
      simp only [hs] at hout
      exact absurd hout (by simp)
    | some v =>
      simp only [hs, key v hs] at hout
      exact absurd hout (by simp)

/-- Witness for amended C3 at the spec's own example text. -/
theorem spec_c3_witness :
    isParse502 (generate_quiz "s" (some ("No puedo ayudar con eso.".toList))
      ⟨"t".toList, 5⟩) :=
  (spec_c3 ("No puedo ayudar con eso.".toList) (by decide) "s" ("t".toList) 5).1 (by rfl)

/-- Counterexample to C4 as stated: the text `a\nb` contains no multi-space
run, yet joining the returned words with single spaces yields `a b`, which is
not the returned text. -/
theorem spec_c4_cex :
    generate_rsvp "id" (some ("a\nb".toList)) ⟨"t".toList, 250, 5⟩ =
      Except.ok ⟨"id", "a\nb".toList, ["a".toList, "b".toList]⟩ ∧
    noDoubleSpace ("a\nb".toList) = true ∧
    joinSpace ["a".toList, "b".toList] ≠ "a\nb".toList := by
  exact ⟨by decide, by decide, by decide⟩

/-- Amended C4: the words sequence, joined with single spaces, reconstructs
the returned text exactly provided every whitespace character of the text is
a plain space and no two spaces are adjacent (the handler already strips
leading and trailing whitespace). -/
theorem spec_c4 (fresh : String) (raw : List Char) (req : RSVPIn) (out : RSVPOut)
    (hok : generate_rsvp fresh (some raw) req = Except.ok out)
    (hsp : ∀ c ∈ out.texto, isPyWs c = true → c = ' ')
    (hnd : noDoubleSpace out.texto = true) :
    joinSpace out.palabras = out.texto := by
  have hout : out = ⟨fresh, pyStrip raw, pySplitWs (pyStrip raw)⟩ := by
    have h2 : generate_rsvp fresh (some raw) req =
        Except.ok ⟨fresh, pyStrip raw, pySplitWs (pyStrip raw)⟩ := rfl
    rw [h2] at hok
    simp only [Except.ok.injEq] at hok
    exact hok.symm
  subst hout
  refine join_split (pyStrip raw).length (pyStrip raw) le_rfl hsp hnd ?_ ?_
  · intro hh
    exact absurd (stripEnds_head isPyWs raw ' ' hh) (by decide)
  · intro hl
    exact absurd (stripEnds_last isPyWs raw ' ' hl) (by decide)

/-- Witness for amended C4 at a concrete upstream text. -/
theorem spec_c4_witness :
    joinSpace ["hola".toList, "mundo".toList] = "hola mundo".toList :=
  spec_c4 "id" (" hola mundo ".toList) ⟨"t".toList, 250, 5⟩
    ⟨"id", "hola mundo".toList, ["hola".toList, "mundo".toList]⟩
    (by decide) (by decide) (by decide)

/-- Claim C5: out-of-bounds numeric fields are rejected with a 4xx input
validation error before any upstream call is made: the outcome does not
depend on the Generation Client at all. -/
theorem spec_c5 (topic texto : List Char) (wc nq : Int)
    (h : ¬(80 ≤ wc ∧ wc ≤ 800) ∨ ¬(3 ≤ nq ∧ nq ≤ 12)) :
    (∀ resp fresh, ∃ e, rsvpEndpoint resp fresh topic wc nq = Except.error e ∧
      400 ≤ e.status ∧ e.status < 500) ∧
    (∀ resp resp2 fresh, rsvpEndpoint resp fresh topic wc nq =
      rsvpEndpoint resp2 fresh topic wc nq) ∧
    (¬(3 ≤ nq ∧ nq ≤ 12) →
      (∀ resp fresh, ∃ e, quizEndpoint resp fresh texto nq = Except.error e ∧
        400 ≤ e.status ∧ e.status < 500) ∧
      ∀ resp resp2 fresh, quizEndpoint resp fresh texto nq =
        quizEndpoint resp2 fresh texto nq) := by
  have hnotok : ∀ p, parseRSVPIn topic wc nq = Except.ok p → False := by
    intro p hp
    unfold parseRSVPIn at hp
    by_cases h1 : 80 ≤ wc ∧ wc ≤ 800
    · by_cases h2 : 3 ≤ nq ∧ nq ≤ 12
      · rcases h with h | h
        · exact h h1
        · exact h h2
      · rw [if_pos h1, if_neg h2] at hp
        exact absurd hp (by simp)
    · rw [if_neg h1] at hp
      exact absurd hp (by simp)
  refine ⟨?_, ?_, ?_⟩
  · intro resp fresh
    unfold rsvpEndpoint
    cases hp : parseRSVPIn topic wc nq with
    | error e =>
      refine ⟨e, rfl, ?_⟩
      unfold parseRSVPIn at hp
      by_cases h1 : 80 ≤ wc ∧ wc ≤ 800
      · by_cases h2 : 3 ≤ nq ∧ nq ≤ 12
        · rw [if_pos h1, if_pos h2] at hp
          exact absurd hp (by simp)
        · rw [if_pos h1, if_neg h2] at hp
          simp only [Except.error.injEq] at hp
          subst hp
          exact ⟨by decide, by decide⟩
      · rw [if_neg h1] at hp
        simp only [Except.error.injEq] at hp
        subst hp
        exact ⟨by decide, by decide⟩
    | ok p => exact absurd hp fun h2 => hnotok p h2
  · intro resp resp2 fresh
    unfold rsvpEndpoint
    cases hp : parseRSVPIn topic wc nq with
    | error e => rfl
    | ok p => exact absurd hp fun h2 => hnotok p h2
  · intro hnq
    constructor
    · intro resp fresh
      unfold quizEndpoint parseQuizIn
      rw [if_neg hnq]
      exact ⟨⟨422, "Input validation error: num_preguntas"⟩, rfl, by decide, by decide⟩
    · intro resp resp2 fresh
      unfold quizEndpoint parseQuizIn
      rw [if_neg hnq]

/-- Witness for C5: the spec's example `target_word_count = 50` is rejected
with a 4xx error, for any upstream behaviour. -/
theorem spec_c5_witness :
    ∃ e, rsvpEndpoint (some ("y".toList)) "id" ("t".toList) 50 5 = Except.error e ∧
      400 ≤ e.status ∧ e.status < 500 :=
  (spec_c5 ("t".toList) ("x".toList) 50 5 (Or.inl (by decide))).1 (some ("y".toList)) "id"

/-- Counterexample to C6 as stated: a request with an empty topic (resp. an
empty source text) passes validation — it is not rejected. -/
theorem spec_c6_cex :
    parseRSVPIn [] 250 5 = Except.ok ⟨[], 250, 5⟩ ∧
    parseQuizIn [] 5 = Except.ok ⟨[], 5⟩ := by
  exact ⟨by decide, by decide⟩

/-- Amended C6: request validation constrains only the numeric bounds; the
topic and source_text strings are arbitrary and may be empty. -/
theorem spec_c6 : ∀ (topic texto : List Char) (wc nq : Int),
    (parseRSVPIn topic wc nq = Except.ok ⟨topic, wc, nq⟩ ↔
      (80 ≤ wc ∧ wc ≤ 800) ∧ (3 ≤ nq ∧ nq ≤ 12)) ∧
    (parseQuizIn texto nq = Except.ok ⟨texto, nq⟩ ↔ 3 ≤ nq ∧ nq ≤ 12) := by
  intro topic texto wc nq
  constructor
  · constructor
    · intro hp
      unfold parseRSVPIn at hp
      by_cases h1 : 80 ≤ wc ∧ wc ≤ 800
      · by_cases h2 : 3 ≤ nq ∧ nq ≤ 12
        · exact ⟨h1, h2⟩
        · rw [if_pos h1, if_neg h2] at hp
          exact absurd hp (by simp)
      · rw [if_neg h1] at hp
        exact absurd hp (by simp)
    · rintro ⟨h1, h2⟩
      unfold parseRSVPIn
      rw [if_pos h1, if_pos h2]
  · constructor
    · intro hp
      unfold parseQuizIn at hp
      by_cases h2 : 3 ≤ nq ∧ nq ≤ 12
      · exact h2
      · rw [if_neg h2] at hp
        exact absurd hp (by simp)
    · intro h2
      unfold parseQuizIn
      rw [if_pos h2]

/-- Counterexample to C7 as stated: a parsed payload whose single item has an
empty options list is accepted — `generate_quiz` returns a QuizResult instead
of the 422 the claim requires. -/
theorem spec_c7_cex :
    generate_quiz "s"
      (some (("\x7b\"texto\": \"t\", \"preguntas\": [\x7b\"pregunta\": \"p\", " ++
        "\"opciones\": [], \"respuesta\": 0, \"explanation\": \"e\"\x7d]\x7d").toList))
      ⟨"t".toList, 5⟩ =
    Except.ok ⟨"s", [⟨"p".toList, [], 0, "e".toList⟩]⟩ := by
  decide

/-- Validation of one item with the four schema fields in source order:
any list of string options is accepted, and the fields carry over. -/
theorem toQuizItem_fields (p e : List Char) (xs : List JVal) (os : List (List Char))
    (r : List Char) (hxs : asStrList xs = some os) (hint : isIntLex r = true) :
    toQuizItem (JVal.JObj [("pregunta".toList, JVal.JStr p),
        ("opciones".toList, JVal.JArr xs),
        ("respuesta".toList, JVal.JNum r),
        ("explanation".toList, JVal.JStr e)]) =
      some ⟨p, os, lexToInt r, e⟩ := by
  have l1 : lookupJ [(("pregunta".toList : List Char), JVal.JStr p),
      ("opciones".toList, JVal.JArr xs), ("respuesta".toList, JVal.JNum r),
      ("explanation".toList, JVal.JStr e)] ("pregunta".toList) = some (JVal.JStr p) := rfl
  have l2 : lookupJ [(("pregunta".toList : List Char), JVal.JStr p),
      ("opciones".toList, JVal.JArr xs), ("respuesta".toList, JVal.JNum r),
      ("explanation".toList, JVal.JStr e)] ("opciones".toList) = some (JVal.JArr xs) := rfl
  have l3 : lookupJ [(("pregunta".toList : List Char), JVal.JStr p),
      ("opciones".toList, JVal.JArr xs), ("respuesta".toList, JVal.JNum r),
      ("explanation".toList, JVal.JStr e)] ("respuesta".toList) = some (JVal.JNum r) := rfl
  have l4 : lookupJ [(("pregunta".toList : List Char), JVal.JStr p),
      ("opciones".toList, JVal.JArr xs), ("respuesta".toList, JVal.JNum r),
      ("explanation".toList, JVal.JStr e)] ("explanation".toList) =
      some (JVal.JStr e) := rfl
  simp only [toQuizItem, l1, l2, l3, l4]
  rw [if_pos hint, hxs]
  rfl

/-- Amended C7: structural validation accepts `options` as any list of
strings — including the empty list; an item with empty options passes
validation with its fields preserved. -/
theorem spec_c7 (p e : String) (opts : List String) :
    toQuizItem (JVal.JObj [("pregunta".toList, JVal.JStr p.toList),
        ("opciones".toList, JVal.JArr (opts.map (fun o => JVal.JStr o.toList))),
        ("respuesta".toList, JVal.JNum ("0".toList)),
        ("explanation".toList, JVal.JStr e.toList)]) =
      some ⟨p.toList, opts.map String.toList, 0, e.toList⟩ ∧
    toQuizItem (JVal.JObj [("pregunta".toList, JVal.JStr p.toList),
        ("opciones".toList, JVal.JArr []),
        ("respuesta".toList, JVal.JNum ("0".toList)),
        ("explanation".toList, JVal.JStr e.toList)]) =
      some ⟨p.toList, [], 0, e.toList⟩ := by
  have hmap : asStrList (opts.map (fun o => JVal.JStr o.toList)) =
      some (opts.map String.toList) := by
    have h2 : (opts.map String.toList).map JVal.JStr =
        opts.map (fun o => JVal.JStr o.toList) := by
      rw [List.map_map]
      rfl
    rw [← h2, asStrList_map]
  constructor
  · rw [show (0 : Int) = lexToInt ("0".toList) from rfl]
    exact toQuizItem_fields p.toList e.toList _ _ ("0".toList) hmap rfl
  · rw [show (0 : Int) = lexToInt ("0".toList) from rfl]
    exact toQuizItem_fields p.toList e.toList [] [] ("0".toList) rfl rfl

/-- Claim C8: when the upstream reply normalizes to an object with a string
`texto` and a `preguntas` array of schema-valid items, `generate_quiz`
succeeds, its items are exactly the validated items in order, and their count
equals the array's length (in particular the requested `question_count` when
the model complied). -/
theorem spec_c8 (fresh : String) (src raw : List Char) (n : Int)
    (kvs : List (List Char × JVal)) (t : List Char) (xs : List JVal)
    (items : List QuizItem)
    (hn : 3 ≤ n ∧ n ≤ 12)
    (hp : safe_json_loads raw = some (JVal.JObj kvs))
    (ht : lookupJ kvs ("texto".toList) = some (JVal.JStr t))
    (hq : lookupJ kvs ("preguntas".toList) = some (JVal.JArr xs))
    (hitems : itemsOf xs = some items)
    (hlen : (xs.length : Int) = n) :
    generate_quiz fresh (some raw) ⟨src, n⟩ = Except.ok ⟨fresh, items⟩ ∧
    (items.length : Int) = n := by
  have htp : toQuizPayload (JVal.JObj kvs) = some ⟨t, items⟩ := by
    simp only [toQuizPayload, ht, hq, hitems]
    rfl
  constructor
  · rw [generate_quiz_eq]
    simp only [hp, htp]
  · rw [← hlen, itemsOf_length xs items hitems]

/-- Witness for C8: a simulated upstream reply with exactly three question
objects yields a QuizResult with exactly three items, fields preserved. -/
theorem spec_c8_witness :
    generate_quiz "s"
      (some (("\x7b\"texto\": \"r\", \"preguntas\": [" ++
        "\x7b\"pregunta\": \"a\", \"opciones\": [\"x\",\"y\"], \"respuesta\": 0, " ++
        "\"explanation\": \"u\"\x7d, " ++
        "\x7b\"pregunta\": \"b\", \"opciones\": [\"x\",\"y\"], \"respuesta\": 1, " ++
        "\"explanation\": \"v\"\x7d, " ++
        "\x7b\"pregunta\": \"c\", \"opciones\": [\"x\",\"y\"], \"respuesta\": 0, " ++
        "\"explanation\": \"w\"\x7d]\x7d").toList))
      ⟨"t".toList, 3⟩ =
      Except.ok ⟨"s",
        [⟨"a".toList, ["x".toList, "y".toList], 0, "u".toList⟩,
         ⟨"b".toList, ["x".toList, "y".toList], 1, "v".toList⟩,
         ⟨"c".toList, ["x".toList, "y".toList], 0, "w".toList⟩]⟩ ∧
    (([⟨"a".toList, ["x".toList, "y".toList], 0, "u".toList⟩,
       ⟨"b".toList, ["x".toList, "y".toList], 1, "v".toList⟩,
       ⟨"c".toList, ["x".toList, "y".toList], 0, "w".toList⟩] :
        List QuizItem).length : Int) = 3 :=
  spec_c8 "s" ("t".toList) _ 3 _ _ _ _ ⟨by decide, by decide⟩ rfl rfl rfl rfl rfl

/-- Claim C9 (implicit): brace-slicing is applied only to fenced input — any
payload that does not begin with backticks after trimming is handed to the
JSON parser unmodified; in particular a valid JSON object surrounded by
unfenced prose yields the 502 malformed-JSON error. -/
theorem spec_c9 (txt : List Char)
    (h : ¬List.isPrefixOf ("```".toList) (pyStrip txt) = true) :
    safe_json_loads txt = jsonLoads (pyStrip txt) ∧
    isParse502 (generate_quiz "s"
      (some ("Claro: \x7b\"a\": 1\x7d es el JSON.".toList)) ⟨"t".toList, 5⟩) := by
  constructor
  · unfold safe_json_loads cleanPayload
    rw [if_neg h]
  · refine ⟨jsonErrMsg (cleanPayload (pyStrip
      ("Claro: \x7b\"a\": 1\x7d es el JSON.".toList))), ?_⟩
    rw [generate_quiz_eq]
    simp only [show safe_json_loads ("Claro: \x7b\"a\": 1\x7d es el JSON.".toList) = none
      from rfl]

/-- Witness for C9 at a concrete unfenced payload. -/
theorem spec_c9_witness :
    safe_json_loads ("hola".toList) = jsonLoads (pyStrip ("hola".toList)) ∧
    isParse502 (generate_quiz "s"
      (some ("Claro: \x7b\"a\": 1\x7d es el JSON.".toList)) ⟨"t".toList, 5⟩) :=
  spec_c9 ("hola".toList) (by decide)

/-- Claim C10 (implicit): in every successful passage response, each word is
a non-empty, whitespace-free string, and the words sequence is exactly the
whitespace tokenization of the text. -/
theorem spec_c10 (fresh : String) (raw : List Char) (req : RSVPIn) (out : RSVPOut)
    (hok : generate_rsvp fresh (some raw) req = Except.ok out) :
    (∀ w ∈ out.palabras, w ≠ [] ∧ ∀ c ∈ w, isPyWs c = false) ∧
    out.palabras = tokenizeSpec out.texto := by
  have hout : out = ⟨fresh, pyStrip raw, pySplitWs (pyStrip raw)⟩ := by
    have h2 : generate_rsvp fresh (some raw) req =
        Except.ok ⟨fresh, pyStrip raw, pySplitWs (pyStrip raw)⟩ := rfl
    rw [h2] at hok
    simp only [Except.ok.injEq] at hok
    exact hok.symm
  subst hout
  constructor
  · exact pySplit_tokens (pyStrip raw).length (pyStrip raw) le_rfl
  · show pySplitWs (pyStrip raw) =
      ((pyStrip raw).splitOnP isPyWs).filter (fun w => w ≠ [])
    exact pySplit_spec (pyStrip raw).length (pyStrip raw) le_rfl

/-- Witness for C10 at a concrete upstream text with irregular whitespace. -/
theorem spec_c10_witness :
    (∀ w ∈ (["a".toList, "b".toList] : List (List Char)),
      w ≠ [] ∧ ∀ c ∈ w, isPyWs c = false) ∧
    (["a".toList, "b".toList] : List (List Char)) = tokenizeSpec ("a  b".toList) :=
  spec_c10 "id" (" a  b ".toList) ⟨"t".toList, 250, 5⟩
    ⟨"id", "a  b".toList, ["a".toList, "b".toList]⟩ (by decide)

end RSVP